import Mathlib

/-!
# SMTP configuration commands and the SCIM users resource

A shallow embedding of

* `internal/command/smtp.go`: `AddSMTPConfig`, `ChangeSMTPConfig`,
  `ChangeSMTPConfigPassword`, `getSMTPConfig`;
* `private/api/scim/resources/user.go` and `user_mapping.go`: `Delete`,
  `queryUserDependencies`, `cascadingMemberships`, `userGrantsToIDs`, `mapToAddHuman`,
  `mapPrimaryEmail`, `mapPrimaryPhone`, `mapToScimUser`, `mapHumanToScimUser`,
  `buildResourceForQuery`;
* `private/api/scim/resources/user_metadata.go`: `mapMetadataToCommands`,
  `getValueForMetadataKey`, `getRawValueForMetadataKey`, `extractScalarMetadata`,
  `extractHttpURLMetadata`, `extractJsonMetadata` and the map `queryMetadataForUser` builds;
* `private/api/scim/resources/resource_handler.go`: `buildResource`, `buildLocation`;
* `private/api/scim/server.go` and `authz.go`: the routes of `mapResource` and `AuthMapping`;
* `internal/integration/scim/client.go`: `Create`, `CreateRaw`, `Delete`, `do`,
  `doWithJsonBody`, `doWithBody`, `doReq`, `readJson`, `readScimError`.

Go functions returning `(value, error)` are embedded either as `Except` or as a record
holding both return values.  Calls to collaborators are recorded in a call list so that
"was not called" is a statement about the run.  A Go call that may panic returns an `Outcome`,
and a method that may call itself without end is run on a bounded number of calls.
-/

namespace Zitadel

/-! ## Errors -/

/-- Modelled from the spec: the package `caos_errs` is not among the sources.  The error kinds
are those of the error taxonomy. -/
inductive ErrorKind
  | AlreadyExists
  | NotFound
  | PreconditionFailed
  | ConcurrencyConflict
  | EncryptionError
  | SerializationError
  | Unavailable
  deriving DecidableEq, Repr

/-- Modelled from the spec: a `caos_errs` error value is a typed result, here its kind, id and
message.  Every error thrown in `smtp.go` has a nil parent, so the parent is not represented. -/
structure CaosError where
  Kind : ErrorKind
  ID : String
  Message : String
  deriving DecidableEq, Repr

/-- The call `caos_errs.ThrowAlreadyExists(nil, id, message)` of `smtp.go`. -/
def ThrowAlreadyExists (id message : String) : CaosError :=
  { Kind := ErrorKind.AlreadyExists, ID := id, Message := message }

/-- The call `caos_errs.ThrowNotFound(nil, id, message)` of `smtp.go`. -/
def ThrowNotFound (id message : String) : CaosError :=
  { Kind := ErrorKind.NotFound, ID := id, Message := message }

/-- The call `caos_errs.ThrowPreconditionFailed(nil, id, message)` of `smtp.go`. -/
def ThrowPreconditionFailed (id message : String) : CaosError :=
  { Kind := ErrorKind.PreconditionFailed, ID := id, Message := message }

/-! ## Data model of the SMTP configuration aggregate -/

/-- Modelled from the spec: `domain.SMTPConfigState` is not among the sources; the spec gives
the shapes of a configuration entity as "unspecified / active / removed". -/
inductive SMTPConfigState
  | Unspecified
  | Active
  | Removed
  deriving DecidableEq, Repr

/-- Modelled from the spec: `crypto.CryptoValue` is not among the sources.  It is the opaque
ciphertext token the secret provider returns; the commands never look inside. -/
structure CryptoValue where
  Algorithm : String
  KeyID : String
  Crypted : List Nat
  deriving DecidableEq, Repr

/-- An encryption algorithm (`c.smtpPasswordCrypto`), seen through `crypto.Encrypt`: it maps a
plaintext to a crypto value or fails. -/
abbrev EncryptionAlgorithm := String → Except CaosError CryptoValue

/-- The call `crypto.Encrypt(value, alg)` of `smtp.go`: the algorithm applied to the value. -/
def Encrypt (value : String) (alg : EncryptionAlgorithm) : Except CaosError CryptoValue :=
  alg value

/-- The `SMTP` part of `smtp.EmailConfig`, with the fields `smtp.go` reads. -/
structure SMTP where
  Host : String
  User : String
  Password : String
  deriving DecidableEq, Repr

/-- The type `smtp.EmailConfig`, with the fields `smtp.go` reads. -/
structure EmailConfig where
  SMTP : SMTP
  Tls : Bool
  From : String
  FromName : String
  deriving DecidableEq, Repr

/-- Modelled from the spec: an aggregate reference is a type, an id and the owning tenant. -/
structure Aggregate where
  Typ : String
  ID : String
  ResourceOwner : String
  deriving DecidableEq, Repr

/-- Modelled from the spec: the typed payload of an event, by event kind.  The added event
carries the arguments `smtp.go` passes to its constructor, the changed event is a delta (a
field is present only when it differs), the password-changed event carries the new password,
and any other event type is unknown to the SMTP configuration. -/
inductive Payload
  | SMTPConfigAdded (tls : Bool) (senderAddress senderName host user : String)
      (password : Option CryptoValue)
  | SMTPConfigChanged (tls : Option Bool) (senderAddress senderName host user : Option String)
  | SMTPConfigPasswordChanged (password : CryptoValue)
  | SMTPConfigRemoved
  | Other (eventType : String)
  deriving DecidableEq, Repr

/-- Modelled from the spec: an event as handed to `Push`, not yet sequenced. -/
structure Command where
  Aggregate : Aggregate
  Payload : Payload
  deriving DecidableEq, Repr

/-- Modelled from the spec: an event of the log, with its aggregate reference, its sequence
number within the aggregate, its creation timestamp and its payload. -/
structure Event where
  Aggregate : Aggregate
  Sequence : Nat
  CreationDate : Nat
  Payload : Payload
  deriving DecidableEq, Repr

/-- Modelled from the spec: the type tag of the instance aggregate (`instance.AggregateType` is
not among the sources; any fixed tag serves). -/
def InstanceAggregateType : String := "instance"

/-- Modelled from the spec: the id of the single instance aggregate the SMTP configuration
belongs to (`domain.IAMID` is not among the sources; any fixed id serves). -/
def IAMID : String := "IAM"

/-- The call `instance.NewSMTPConfigAddedEvent(ctx, aggregate, tls, senderAddress, senderName,
host, user, password)` of `smtp.go`: the added event with these arguments. -/
def NewSMTPConfigAddedEvent (aggregate : Aggregate) (tls : Bool)
    (senderAddress senderName host user : String) (password : Option CryptoValue) : Command :=
  { Aggregate := aggregate
    Payload := Payload.SMTPConfigAdded tls senderAddress senderName host user password }

/-- The call `instance.NewSMTPConfigPasswordChangedEvent(ctx, aggregate, password)` of
`smtp.go`: the password-changed event with this password. -/
def NewSMTPConfigPasswordChangedEvent (aggregate : Aggregate) (password : CryptoValue) :
    Command :=
  { Aggregate := aggregate, Payload := Payload.SMTPConfigPasswordChanged password }

/-- Modelled from the spec: `eventstore.WriteModel` is not among the sources.  It holds the
target aggregate, the processed sequence number and the change timestamp. -/
structure WriteModel where
  AggregateID : String
  ProcessedSequence : Nat
  ResourceOwner : String
  ChangeDate : Nat
  deriving DecidableEq, Repr

/-- Modelled from the spec: `InstanceSMTPConfigWriteModel` is not among the sources.  It holds
the base write model and the reduced domain state: the fields the change detector compares, the
stored password and the state. -/
structure InstanceSMTPConfigWriteModel where
  WriteModel : WriteModel
  TLS : Bool
  SenderAddress : String
  SenderName : String
  Host : String
  User : String
  Password : Option CryptoValue
  State : SMTPConfigState
  deriving DecidableEq, Repr

/-- Modelled from the spec: `NewInstanceSMTPConfigWriteModel()` is not among the sources.  A
fresh write model targets the instance aggregate, has processed nothing and is unspecified. -/
def NewInstanceSMTPConfigWriteModel : InstanceSMTPConfigWriteModel :=
  { WriteModel := { AggregateID := IAMID, ProcessedSequence := 0, ResourceOwner := IAMID,
                    ChangeDate := 0 }
    TLS := false, SenderAddress := "", SenderName := "", Host := "", User := ""
    Password := none, State := SMTPConfigState.Unspecified }

/-- The type `domain.ObjectDetails`, the command result, with the fields the sources read
(`ID`, `Sequence`, `EventDate`, `CreationDate`) and the owning tenant. -/
structure ObjectDetails where
  ID : String
  Sequence : Nat
  EventDate : Nat
  CreationDate : Nat
  ResourceOwner : String
  deriving DecidableEq, Repr

/-- Modelled from the spec: `writeModelToObjectDetails` is not among the sources.  The command
result is the aggregate id, the resulting sequence and the change timestamp of the write model;
the creation timestamp is left at its zero value. -/
def writeModelToObjectDetails (wm : WriteModel) : ObjectDetails :=
  { ID := wm.AggregateID, Sequence := wm.ProcessedSequence, EventDate := wm.ChangeDate,
    CreationDate := 0, ResourceOwner := wm.ResourceOwner }

/-- Modelled from the spec: `InstanceAggregateFromWriteModel` is not among the sources.  The
aggregate reference of a write model of the instance aggregate. -/
def InstanceAggregateFromWriteModel (wm : WriteModel) : Aggregate :=
  { Typ := InstanceAggregateType, ID := wm.AggregateID, ResourceOwner := wm.ResourceOwner }

/-! ## Reduction -/

/-- Modelled from the spec: the per-event transition of the SMTP configuration write model is
not among the sources.  `added` makes the configuration active and sets its fields, `changed`
applies the delta, `password_changed` replaces the password, `removed` makes it removed, and
an unknown event type leaves the domain state alone. -/
def reducePayload (wm : InstanceSMTPConfigWriteModel) : Payload → InstanceSMTPConfigWriteModel
  | Payload.SMTPConfigAdded tls senderAddress senderName host user password =>
      { wm with TLS := tls, SenderAddress := senderAddress, SenderName := senderName,
                Host := host, User := user, Password := password,
                State := SMTPConfigState.Active }
  | Payload.SMTPConfigChanged tls senderAddress senderName host user =>
      { wm with TLS := tls.getD wm.TLS
                SenderAddress := senderAddress.getD wm.SenderAddress
                SenderName := senderName.getD wm.SenderName
                Host := host.getD wm.Host
                User := user.getD wm.User }
  | Payload.SMTPConfigPasswordChanged password => { wm with Password := some password }
  | Payload.SMTPConfigRemoved => { wm with State := SMTPConfigState.Removed }
  | Payload.Other _ => wm

/-- Modelled from the spec: folding one event into the write model.  The domain state moves by
`reducePayload`; the processed sequence and the change date become those of the event, so the
processed sequence is always the sequence of the last event folded in. -/
def reduceEvent (wm : InstanceSMTPConfigWriteModel) (e : Event) : InstanceSMTPConfigWriteModel :=
  let wm1 := reducePayload wm e.Payload
  { wm1 with WriteModel := { wm1.WriteModel with ProcessedSequence := e.Sequence
                                                 ChangeDate := e.CreationDate } }

/-- Modelled from the spec: `AppendAndReduce(writeModel, events...)` is not among the sources.
It appends the events and reduces: the left fold of the per-event transition over the batch.
Reduction is pure, so the error the Go signature allows is never raised. -/
def AppendAndReduce (wm : InstanceSMTPConfigWriteModel) (events : List Event) :
    Except CaosError InstanceSMTPConfigWriteModel :=
  Except.ok (events.foldl reduceEvent wm)

/-! ## The event store -/

/-- Modelled from the spec: the event log is an external collaborator.  It holds the append-only
log, whether a replay fails, whether an append of a batch to the current log fails, and the
clock it stamps events with. -/
structure Eventstore where
  events : List Event
  filterErr : Option CaosError
  pushErr : List Event → List Command → Option CaosError
  clock : Nat

/-- The number of events the log holds for an aggregate: its current sequence number. -/
def aggregateSequence (log : List Event) (a : Aggregate) : Nat :=
  (log.filter (fun e => decide (e.Aggregate = a))).length

/-- Modelled from the spec: an append orders the batch after the log; each event gets the next
sequence number of its aggregate (sequences are per aggregate, gapless, starting at 1). -/
def stamp (now : Nat) : List Event → List Command → List Event
  | _, [] => []
  | log, c :: cs =>
      let e : Event := { Aggregate := c.Aggregate, Sequence := aggregateSequence log c.Aggregate + 1,
                         CreationDate := now, Payload := c.Payload }
      e :: stamp now (log ++ [e]) cs

/-- Modelled from the spec: `Eventstore.Push`.  The append is atomic: either it fails and the
log is unchanged, or the whole batch is appended and returned as sequenced events. -/
def Eventstore.Push (es : Eventstore) (cmds : List Command) :
    Except CaosError (List Event) × Eventstore :=
  match es.pushErr es.events cmds with
  | some err => (Except.error err, es)
  | none =>
      let pushed := stamp es.clock es.events cmds
      (Except.ok pushed, { es with events := es.events ++ pushed, clock := es.clock + 1 })

/-- Modelled from the spec: the query of the SMTP configuration write model selects the events
of its aggregate whose type is on the allow-list (every SMTP configuration event). -/
def InstanceSMTPConfigWriteModel.Query (wm : InstanceSMTPConfigWriteModel) (e : Event) : Bool :=
  decide (e.Aggregate.Typ = InstanceAggregateType) && decide (e.Aggregate.ID = wm.WriteModel.AggregateID)
    && (match e.Payload with
        | Payload.Other _ => false
        | _ => true)

/-- Modelled from the spec: `Eventstore.FilterToQueryReducer`.  The replay returns the events the
query selects, in log order, and they are folded into the write model; or the replay fails. -/
def Eventstore.FilterToQueryReducer (es : Eventstore) (wm : InstanceSMTPConfigWriteModel) :
    Except CaosError InstanceSMTPConfigWriteModel :=
  match es.filterErr with
  | some err => Except.error err
  | none => AppendAndReduce wm (es.events.filter wm.Query)

/-! ## The commands of `smtp.go` -/

/-- The collaborators of `Commands` that `smtp.go` uses. -/
structure Commands where
  eventstore : Eventstore
  smtpPasswordCrypto : EncryptionAlgorithm

/-- A call to a collaborator, in the order the command makes them. -/
inductive Call
  | Filter
  | Encrypt (value : String)
  | Push (cmds : List Command)
  | Reduce (events : List Event)
  deriving DecidableEq, Repr

/-- One run of a command: the two Go return values, the event store afterwards, the calls made
to collaborators, and the write model instance as the command leaves it (absent when hydration
failed). -/
structure Run where
  details : Option ObjectDetails
  err : Option CaosError
  eventstore : Eventstore
  calls : List Call
  model : Option InstanceSMTPConfigWriteModel

/-- Embeds `Commands.getSMTPConfig` (smtp.go 111-119): hydrate a fresh write model from the log. -/
def Commands.getSMTPConfig (c : Commands) : Except CaosError InstanceSMTPConfigWriteModel :=
  c.eventstore.FilterToQueryReducer NewInstanceSMTPConfigWriteModel

/-- The tail shared by the three commands (smtp.go 30-46, 73-81, 97-108): push the event, on
failure return the error, otherwise fold the pushed events into the same write model and
return its object details. -/
def Commands.pushAndReduce (c : Commands) (wm : InstanceSMTPConfigWriteModel) (cmd : Command)
    (calls : List Call) : Run :=
  match c.eventstore.Push [cmd] with
  | (Except.error err, es) =>
      { details := none, err := some err, eventstore := es,
        calls := calls ++ [Call.Push [cmd]], model := some wm }
  | (Except.ok pushedEvents, es) =>
      match AppendAndReduce wm pushedEvents with
      | Except.error err =>
          { details := none, err := some err, eventstore := es,
            calls := calls ++ [Call.Push [cmd], Call.Reduce pushedEvents], model := some wm }
      | Except.ok wm1 =>
          { details := some (writeModelToObjectDetails wm1.WriteModel), err := none,
            eventstore := es,
            calls := calls ++ [Call.Push [cmd], Call.Reduce pushedEvents], model := some wm1 }

/-- Embeds `Commands.AddSMTPConfig` (smtp.go 13-47). -/
def Commands.AddSMTPConfig (c : Commands) (config : EmailConfig) : Run :=
  match c.getSMTPConfig with
  | Except.error err =>
      { details := none, err := some err, eventstore := c.eventstore, calls := [Call.Filter],
        model := none }
  | Except.ok smtpConfigWriteModel =>
      if smtpConfigWriteModel.State = SMTPConfigState.Active then
        { details := none
          err := some (ThrowAlreadyExists "COMMAND-en9lw" "Errors.SMTPConfig.AlreadyExists")
          eventstore := c.eventstore, calls := [Call.Filter], model := some smtpConfigWriteModel }
      else
        let iamAgg := InstanceAggregateFromWriteModel smtpConfigWriteModel.WriteModel
        if config.SMTP.Password ≠ "" then
          match Encrypt config.SMTP.Password c.smtpPasswordCrypto with
          | Except.error err =>
              { details := none, err := some err, eventstore := c.eventstore,
                calls := [Call.Filter, Call.Encrypt config.SMTP.Password],
                model := some smtpConfigWriteModel }
          | Except.ok smtpPassword =>
              c.pushAndReduce smtpConfigWriteModel
                (NewSMTPConfigAddedEvent iamAgg config.Tls config.From config.FromName
                  config.SMTP.Host config.SMTP.User (some smtpPassword))
                [Call.Filter, Call.Encrypt config.SMTP.Password]
        else
          c.pushAndReduce smtpConfigWriteModel
            (NewSMTPConfigAddedEvent iamAgg config.Tls config.From config.FromName
              config.SMTP.Host config.SMTP.User none)
            [Call.Filter]

/-- Modelled from the spec: `InstanceSMTPConfigWriteModel.NewChangedEvent` (the change detector)
is not among the sources.  Every mutable field of the proposal is compared with the
corresponding field of the current reduced state; only the fields that differ are included in
the candidate event, and the flag says whether any field differed.  It raises no error. -/
def InstanceSMTPConfigWriteModel.NewChangedEvent (wm : InstanceSMTPConfigWriteModel)
    (aggregate : Aggregate) (tls : Bool) (fromAddress fromName smtpHost smtpUser : String) :
    Command × Bool × Option CaosError :=
  let tlsChange := if wm.TLS ≠ tls then some tls else none
  let addressChange := if wm.SenderAddress ≠ fromAddress then some fromAddress else none
  let nameChange := if wm.SenderName ≠ fromName then some fromName else none
  let hostChange := if wm.Host ≠ smtpHost then some smtpHost else none
  let userChange := if wm.User ≠ smtpUser then some smtpUser else none
  ({ Aggregate := aggregate
     Payload := Payload.SMTPConfigChanged tlsChange addressChange nameChange hostChange
       userChange },
   tlsChange.isSome || addressChange.isSome || nameChange.isSome || hostChange.isSome
     || userChange.isSome,
   none)

/-- Embeds `Commands.ChangeSMTPConfig` (smtp.go 49-82). -/
def Commands.ChangeSMTPConfig (c : Commands) (config : EmailConfig) : Run :=
  match c.getSMTPConfig with
  | Except.error err =>
      { details := none, err := some err, eventstore := c.eventstore, calls := [Call.Filter],
        model := none }
  | Except.ok smtpConfigWriteModel =>
      if smtpConfigWriteModel.State = SMTPConfigState.Unspecified then
        { details := none
          err := some (ThrowNotFound "COMMAND-3n9ls" "Errors.SMTPConfig.NotFound")
          eventstore := c.eventstore, calls := [Call.Filter], model := some smtpConfigWriteModel }
      else
        let iamAgg := InstanceAggregateFromWriteModel smtpConfigWriteModel.WriteModel
        match smtpConfigWriteModel.NewChangedEvent iamAgg config.Tls config.From config.FromName
            config.SMTP.Host config.SMTP.User with
        | (_, _, some err) =>
            { details := none, err := some err, eventstore := c.eventstore,
              calls := [Call.Filter], model := some smtpConfigWriteModel }
        | (changedEvent, hasChanged, none) =>
            if !hasChanged then
              { details := none
                err := some (ThrowPreconditionFailed "COMMAND-m0o3f" "Errors.NoChangesFound")
                eventstore := c.eventstore, calls := [Call.Filter],
                model := some smtpConfigWriteModel }
            else
              c.pushAndReduce smtpConfigWriteModel changedEvent [Call.Filter]

/-- Embeds `Commands.ChangeSMTPConfigPassword` (smtp.go 84-109). -/
def Commands.ChangeSMTPConfigPassword (c : Commands) (password : String) : Run :=
  match c.getSMTPConfig with
  | Except.error err =>
      { details := none, err := some err, eventstore := c.eventstore, calls := [Call.Filter],
        model := none }
  | Except.ok smtpConfigWriteModel =>
      if smtpConfigWriteModel.State = SMTPConfigState.Unspecified then
        { details := none
          err := some (ThrowNotFound "COMMAND-3n9ls" "Errors.SMTPConfig.NotFound")
          eventstore := c.eventstore, calls := [Call.Filter], model := some smtpConfigWriteModel }
      else
        let iamAgg := InstanceAggregateFromWriteModel smtpConfigWriteModel.WriteModel
        match Encrypt password c.smtpPasswordCrypto with
        | Except.error err =>
            { details := none, err := some err, eventstore := c.eventstore,
              calls := [Call.Filter, Call.Encrypt password], model := some smtpConfigWriteModel }
        | Except.ok newPW =>
            c.pushAndReduce smtpConfigWriteModel
              (NewSMTPConfigPasswordChangedEvent iamAgg newPW)
              [Call.Filter, Call.Encrypt password]

/-- The password an event handed to the event store carries: the password of an added or a
password-changed event, nothing for the other kinds. -/
def Command.password (cmd : Command) : Option CryptoValue :=
  match cmd.Payload with
  | Payload.SMTPConfigAdded _ _ _ _ _ password => password
  | Payload.SMTPConfigPasswordChanged password => some password
  | _ => none

/-- The events handed to `Push` during a run, over all its calls. -/
def pushedCommands : List Call → List Command
  | [] => []
  | Call.Push cmds :: rest => cmds ++ pushedCommands rest
  | _ :: rest => pushedCommands rest

/-- The plaintexts handed to `crypto.Encrypt` during a run. -/
def encryptedValues : List Call → List String
  | [] => []
  | Call.Encrypt value :: rest => value :: encryptedValues rest
  | _ :: rest => encryptedValues rest

/-- The batches handed to `AppendAndReduce` during a run. -/
def reducedBatches : List Call → List (List Event)
  | [] => []
  | Call.Reduce events :: rest => events :: reducedBatches rest
  | _ :: rest => reducedBatches rest

/-- The kind of the error a run returned, if it returned one. -/
def Run.errKind (r : Run) : Option ErrorKind := r.err.map (fun e => e.Kind)

/-- Append-then-fold for one successful run `r` of a command on `c`: the write model that was
hydrated is the one the batch returned by the single push was folded into, the details are
read from it, and a fresh write model hydrated from the log after the command (the events
before it followed by the pushed events) is equal to it. -/
def appendThenFold (c : Commands) (r : Run) : Prop :=
  ∃ (wm wm1 : InstanceSMTPConfigWriteModel) (cmd : Command) (pushed : List Event),
    c.getSMTPConfig = Except.ok wm ∧
    c.eventstore.Push [cmd] = (Except.ok pushed, r.eventstore) ∧
    r.eventstore.events = c.eventstore.events ++ pushed ∧
    pushedCommands r.calls = [cmd] ∧
    reducedBatches r.calls = [pushed] ∧
    AppendAndReduce wm pushed = Except.ok wm1 ∧
    r.model = some wm1 ∧
    r.details = some (writeModelToObjectDetails wm1.WriteModel) ∧
    Commands.getSMTPConfig { c with eventstore := r.eventstore } = Except.ok wm1

/-- A failing append surfaces in a run `r` of a command on `c`: whenever `Push` was called with
a batch and the event store answered that batch with an error, the run returns exactly that
error and no details, nothing was folded into the write model (it is still the hydrated one),
and the event store is as it was. -/
def pushErrorSurfaced (c : Commands) (r : Run) : Prop :=
  ∀ cmds e, Call.Push cmds ∈ r.calls → (c.eventstore.Push cmds).1 = Except.error e →
    r.err = some e ∧ r.details = none ∧ reducedBatches r.calls = [] ∧
    r.model = c.getSMTPConfig.toOption ∧ r.eventstore = c.eventstore

/-! ## SCIM user deletion (`resources/user.go`, `resources/user_mapping.go`) -/

/-- Embeds `query.IAMMembership`, with the field the mapping reads. -/
structure IAMMembership where
  IAMID : String
  deriving DecidableEq, Repr

/-- Embeds `query.OrgMembership`, with the field the mapping reads. -/
structure OrgMembership where
  OrgID : String
  deriving DecidableEq, Repr

/-- Embeds `query.ProjectMembership`, with the field the mapping reads. -/
structure ProjectMembership where
  ProjectID : String
  deriving DecidableEq, Repr

/-- Embeds `query.ProjectGrantMembership`, with the fields the mapping reads. -/
structure ProjectGrantMembership where
  ProjectID : String
  GrantID : String
  deriving DecidableEq, Repr

/-- Embeds `query.Membership`, with the fields the mapping reads; a nil pointer is `none`. -/
structure Membership where
  UserID : String
  ResourceOwner : String
  IAM : Option IAMMembership
  Org : Option OrgMembership
  Project : Option ProjectMembership
  ProjectGrant : Option ProjectGrantMembership
  deriving DecidableEq, Repr

/-- Embeds `query.UserGrant`, with the field the mapping reads. -/
structure UserGrant where
  ID : String
  deriving DecidableEq, Repr

/-- Embeds `command.CascadingIAMMembership`. -/
structure CascadingIAMMembership where
  IAMID : String
  deriving DecidableEq, Repr

/-- Embeds `command.CascadingOrgMembership`. -/
structure CascadingOrgMembership where
  OrgID : String
  deriving DecidableEq, Repr

/-- Embeds `command.CascadingProjectMembership`. -/
structure CascadingProjectMembership where
  ProjectID : String
  deriving DecidableEq, Repr

/-- Embeds `command.CascadingProjectGrantMembership`. -/
structure CascadingProjectGrantMembership where
  ProjectID : String
  GrantID : String
  deriving DecidableEq, Repr

/-- Embeds `command.CascadingMembership`. -/
structure CascadingMembership where
  UserID : String
  ResourceOwner : String
  IAM : Option CascadingIAMMembership
  Org : Option CascadingOrgMembership
  Project : Option CascadingProjectMembership
  ProjectGrant : Option CascadingProjectGrantMembership
  deriving DecidableEq, Repr

/-- Embeds `cascadingIAMMembership` (user_mapping.go 198-203). -/
def cascadingIAMMembership : Option IAMMembership → Option CascadingIAMMembership
  | none => none
  | some membership => some { IAMID := membership.IAMID }

/-- Embeds `cascadingOrgMembership` (user_mapping.go 205-210). -/
def cascadingOrgMembership : Option OrgMembership → Option CascadingOrgMembership
  | none => none
  | some membership => some { OrgID := membership.OrgID }

/-- Embeds `cascadingProjectMembership` (user_mapping.go 212-217). -/
def cascadingProjectMembership : Option ProjectMembership → Option CascadingProjectMembership
  | none => none
  | some membership => some { ProjectID := membership.ProjectID }

/-- Embeds `cascadingProjectGrantMembership` (user_mapping.go 219-224). -/
def cascadingProjectGrantMembership :
    Option ProjectGrantMembership → Option CascadingProjectGrantMembership
  | none => none
  | some membership => some { ProjectID := membership.ProjectID, GrantID := membership.GrantID }

/-- The body of the loop of `cascadingMemberships` (user_mapping.go 186-193). -/
def cascadingMembership (membership : Membership) : CascadingMembership :=
  { UserID := membership.UserID
    ResourceOwner := membership.ResourceOwner
    IAM := cascadingIAMMembership membership.IAM
    Org := cascadingOrgMembership membership.Org
    Project := cascadingProjectMembership membership.Project
    ProjectGrant := cascadingProjectGrantMembership membership.ProjectGrant }

/-- Embeds `cascadingMemberships` (user_mapping.go 183-196): a slice of the same length whose i-th
entry is built from the i-th membership. -/
def cascadingMemberships : List Membership → List CascadingMembership
  | [] => []
  | membership :: rest => cascadingMembership membership :: cascadingMemberships rest

/-- Embeds `userGrantsToIDs` (user_mapping.go 226-232). -/
def userGrantsToIDs : List UserGrant → List String
  | [] => []
  | grant :: rest => grant.ID :: userGrantsToIDs rest

/-- A search query of the query side; built and interpreted by collaborators only. -/
structure SearchQuery where
  Column : String
  Value : String
  deriving DecidableEq, Repr

/-- The collaborators of `UsersHandler` that `Delete` uses: the two query builders, the two
dependent-entity queries (`h.query`) and the remove-user command (`h.command`). -/
structure UsersHandler where
  NewUserGrantUserIDSearchQuery : String → Except CaosError SearchQuery
  UserGrants : List SearchQuery → Bool → Except CaosError (List UserGrant)
  NewMembershipUserIDQuery : String → Except CaosError SearchQuery
  Memberships : List SearchQuery → Bool → Except CaosError (List Membership)
  RemoveUserV2 : String → List CascadingMembership → List String →
    Except CaosError ObjectDetails

/-- A call `Delete` makes to a collaborator that reads or writes. -/
inductive HandlerCall
  | UserGrants (queries : List SearchQuery)
  | Memberships (queries : List SearchQuery)
  | RemoveUserV2 (userID : String) (memberships : List CascadingMembership)
      (grants : List String)
  deriving DecidableEq, Repr

/-- Embeds `UsersHandler.queryUserDependencies` (user.go 210-236), with the calls it made. -/
def UsersHandler.queryUserDependencies (h : UsersHandler) (userID : String) :
    Except CaosError (List CascadingMembership × List String) × List HandlerCall :=
  match h.NewUserGrantUserIDSearchQuery userID with
  | Except.error err => (Except.error err, [])
  | Except.ok userGrantUserQuery =>
      match h.UserGrants [userGrantUserQuery] true with
      | Except.error err => (Except.error err, [HandlerCall.UserGrants [userGrantUserQuery]])
      | Except.ok grants =>
          match h.NewMembershipUserIDQuery userID with
          | Except.error err =>
              (Except.error err, [HandlerCall.UserGrants [userGrantUserQuery]])
          | Except.ok membershipsUserQuery =>
              match h.Memberships [membershipsUserQuery] false with
              | Except.error err =>
                  (Except.error err, [HandlerCall.UserGrants [userGrantUserQuery],
                    HandlerCall.Memberships [membershipsUserQuery]])
              | Except.ok memberships =>
                  (Except.ok (cascadingMemberships memberships, userGrantsToIDs grants),
                    [HandlerCall.UserGrants [userGrantUserQuery],
                     HandlerCall.Memberships [membershipsUserQuery]])

/-- Embeds `UsersHandler.Delete` (user.go 153-161): the returned error and the calls made. -/
def UsersHandler.Delete (h : UsersHandler) (id : String) : Option CaosError × List HandlerCall :=
  match h.queryUserDependencies id with
  | (Except.error err, calls) => (some err, calls)
  | (Except.ok (memberships, grants), calls) =>
      match h.RemoveUserV2 id memberships grants with
      | Except.error err => (some err, calls ++ [HandlerCall.RemoveUserV2 id memberships grants])
      | Except.ok _ => (none, calls ++ [HandlerCall.RemoveUserV2 id memberships grants])

/-- The invocations of the remove-user command among the calls of a run. -/
def removeUserCalls : List HandlerCall →
    List (String × List CascadingMembership × List String)
  | [] => []
  | HandlerCall.RemoveUserV2 userID memberships grants :: rest =>
      (userID, memberships, grants) :: removeUserCalls rest
  | _ :: rest => removeUserCalls rest

/-- The number of removals one invocation of the remove-user command requests: the primary
removal, one per cascading membership and one per grant. -/
def removalsRequested (call : String × List CascadingMembership × List String) : Nat :=
  1 + call.2.1.length + call.2.2.length

/-! ## The SCIM integration client (`internal/integration/scim/client.go`) -/

/-- Embeds `ScimError` (client.go 25-30). -/
structure ScimError where
  Schemas : List String
  ScimType : String
  Detail : String
  Status : String
  deriving DecidableEq, Repr

/-- A non-nil Go `error` value as the client can return it: a `*ScimError`, or an error of
another type (from building or sending the request). -/
inductive GoError
  | Scim (e : ScimError)
  | Other (message : String)
  deriving DecidableEq, Repr

/-- How a Go call ends: it returns a value or it panics. -/
inductive Outcome (α : Type)
  | returned (value : α)
  | panicked (message : String)
  deriving DecidableEq, Repr

/-- The request context as the client reads it: the `Authorization` values of the outgoing gRPC
metadata, `none` when the context carries no outgoing metadata. -/
structure Context where
  outgoingAuthorization : Option (List String)
  deriving DecidableEq, Repr

/-- Embeds `http.Request`, with what the client sets. -/
structure Request where
  ctx : Context
  Method : String
  URL : String
  Header : List (String × String)
  Body : Option String
  deriving DecidableEq, Repr

/-- Embeds `http.Response`, with what the client reads: the status code (never negative: `net/http`
rejects such a response), the body, and the error closing the body returns, if any. -/
structure Response where
  StatusCode : Nat
  Body : String
  closeErr : Option String
  deriving DecidableEq, Repr

/-- Embeds `ResourceClient` (client.go 20-23): `client` is `http.Client.Do` and `baseUrl` the base URL.
The standard-library functions the client calls are carried along: `NewRequestWithContext` is
`http.NewRequestWithContext`, and `decodeScimError` is `json.Decoder.Decode` into a `ScimError`. -/
structure ResourceClient where
  client : Request → Except GoError Response
  baseUrl : String
  NewRequestWithContext : Context → String → String → Option String → Except GoError Request
  decodeScimError : String → Except String ScimError

/-- Embeds `http.MethodDelete`. -/
def MethodDelete : String := "DELETE"

/-- Embeds `http.Header.Set`. -/
def headerSet (header : List (String × String)) (key value : String) : List (String × String) :=
  (key, value) :: header.filter (fun kv => kv.1 ≠ key)

/-- Embeds `addTokenAsHeader` (client.go 107-114).  Indexing the empty slice of values panics. -/
def addTokenAsHeader (req : Request) : Outcome Request :=
  match req.ctx.outgoingAuthorization with
  | none => Outcome.returned req
  | some [] => Outcome.panicked "index out of range [0] with length 0"
  | some (token :: _) =>
      Outcome.returned { req with Header := headerSet req.Header "Authorization" token }

/-- Embeds `readJson` (client.go 116-125): decode the body into the entity.  `logging.OnError(err)`
panics when the error is not nil, so a decoding failure panics, and so does a failure of the
deferred close; when it returns, the error it returns is the decoding error, which is nil. -/
def readJson {α : Type} (decode : String → Except String α) (resp : Response) :
    Outcome (α × Option GoError) :=
  match decode resp.Body, resp.closeErr with
  | _, some _ => Outcome.panicked "Failed to close response body"
  | Except.error _, none => Outcome.panicked "Failed decoding entity"
  | Except.ok entity, none => Outcome.returned (entity, none)

/-- Embeds `readScimError` (client.go 127-130): it returns what `readJson` returns, not the decoded
`scimErr`. -/
def readScimError (decode : String → Except String ScimError) (resp : Response) :
    Outcome (Option GoError) :=
  match readJson decode resp with
  | Outcome.panicked message => Outcome.panicked message
  | Outcome.returned (_, err) => Outcome.returned err

/-- Embeds `ResourceClient.doReq` (client.go 87-105).  `responseEntity` is the decoder of the entity to
fill, `none` for a nil entity; the result is the entity filled, if any, and the error. -/
def ResourceClient.doReq {α : Type} (c : ResourceClient) (req : Request)
    (responseEntity : Option (String → Except String α)) : Outcome (Option α × Option GoError) :=
  match addTokenAsHeader req with
  | Outcome.panicked message => Outcome.panicked message
  | Outcome.returned req1 =>
      match c.client req1 with
      | Except.error err => Outcome.returned (none, some err)
      | Except.ok resp =>
          if resp.StatusCode % 100 ≠ 2 then
            match readScimError c.decodeScimError resp with
            | Outcome.panicked message => Outcome.panicked message
            | Outcome.returned err => Outcome.returned (none, err)
          else
            match responseEntity with
            | none => Outcome.returned (none, none)
            | some decode =>
                match readJson decode resp with
                | Outcome.panicked message => Outcome.panicked message
                | Outcome.returned (entity, err) => Outcome.returned (some entity, err)

/-- Embeds `ResourceClient.do` (client.go 59-66). -/
def ResourceClient.do (c : ResourceClient) (ctx : Context) (method url : String) :
    Outcome (Option GoError) :=
  match c.NewRequestWithContext ctx method (c.baseUrl ++ url) none with
  | Except.error err => Outcome.returned (some err)
  | Except.ok req =>
      match c.doReq req (none : Option (String → Except String Unit)) with
      | Outcome.panicked message => Outcome.panicked message
      | Outcome.returned (_, err) => Outcome.returned err

/-- Embeds `ResourceClient.Delete` (client.go 55-57). -/
def ResourceClient.Delete (c : ResourceClient) (ctx : Context) (id : String) :
    Outcome (Option GoError) :=
  c.do ctx MethodDelete ("/" ++ id)

/-! ## Concrete inputs -/

/-- An algorithm that always succeeds. -/
def sampleCrypto : EncryptionAlgorithm := fun value =>
  Except.ok { Algorithm := "aes", KeyID := "key-1", Crypted := value.toList.map Char.toNat }

/-- An algorithm that always fails. -/
def failingCrypto : EncryptionAlgorithm := fun _ =>
  Except.error { Kind := ErrorKind.EncryptionError, ID := "CRYPT-1", Message := "no key" }

/-- An append oracle that accepts every batch. -/
def acceptsAll : List Event → List Command → Option CaosError := fun _ _ => none

/-- An append oracle that rejects every batch with a concurrency conflict. -/
def rejectsAll : List Event → List Command → Option CaosError := fun _ _ =>
  some { Kind := ErrorKind.ConcurrencyConflict, ID := "V3-1", Message := "sequence moved" }

/-- The instance aggregate. -/
def instanceAggregate : Aggregate :=
  { Typ := InstanceAggregateType, ID := IAMID, ResourceOwner := IAMID }

/-- A log in which the configuration was added. -/
def activeLog : List Event :=
  [ { Aggregate := instanceAggregate, Sequence := 1, CreationDate := 10,
      Payload := Payload.SMTPConfigAdded true "a@b.c" "A" "smtp.b.c:587" "u" none } ]

/-- A log in which the configuration was added and then removed. -/
def removedLog : List Event :=
  activeLog ++ [ { Aggregate := instanceAggregate, Sequence := 2, CreationDate := 11,
                   Payload := Payload.SMTPConfigRemoved } ]

/-- Commands over an empty log. -/
def emptyCommands : Commands :=
  { eventstore := { events := [], filterErr := none, pushErr := acceptsAll, clock := 9 }
    smtpPasswordCrypto := sampleCrypto }

/-- Commands over the log of an active configuration. -/
def activeCommands : Commands :=
  { eventstore := { events := activeLog, filterErr := none, pushErr := acceptsAll, clock := 12 }
    smtpPasswordCrypto := sampleCrypto }

/-- Commands over the log of a removed configuration. -/
def removedCommands : Commands :=
  { eventstore := { events := removedLog, filterErr := none, pushErr := acceptsAll, clock := 12 }
    smtpPasswordCrypto := sampleCrypto }

/-- Commands over the log of an active configuration whose event store rejects every append. -/
def conflictCommands : Commands :=
  { eventstore := { events := activeLog, filterErr := none, pushErr := rejectsAll, clock := 12 }
    smtpPasswordCrypto := sampleCrypto }

/-- Commands over the log of an active configuration whose encryption fails. -/
def noKeyCommands : Commands :=
  { eventstore := { events := activeLog, filterErr := none, pushErr := acceptsAll, clock := 12 }
    smtpPasswordCrypto := failingCrypto }

/-- The configuration the active log holds, with an empty password. -/
def sampleConfig : EmailConfig :=
  { SMTP := { Host := "smtp.b.c:587", User := "u", Password := "" }, Tls := true,
    From := "a@b.c", FromName := "A" }

/-- A configuration with another host and a password. -/
def otherConfig : EmailConfig :=
  { SMTP := { Host := "mail.b.c:25", User := "u", Password := "pw" }, Tls := true,
    From := "a@b.c", FromName := "A" }

/-- The write model hydrated from the active log. -/
def activeModel : InstanceSMTPConfigWriteModel :=
  { WriteModel := { AggregateID := IAMID, ProcessedSequence := 1, ResourceOwner := IAMID,
                    ChangeDate := 10 }
    TLS := true, SenderAddress := "a@b.c", SenderName := "A", Host := "smtp.b.c:587"
    User := "u", Password := none, State := SMTPConfigState.Active }

/-- Two memberships of a user: one of an organisation, one of a project grant. -/
def sampleMemberships : List Membership :=
  [ { UserID := "u1", ResourceOwner := "org1", IAM := none, Org := some { OrgID := "org1" },
      Project := none, ProjectGrant := none },
    { UserID := "u1", ResourceOwner := "org2", IAM := none, Org := none, Project := none,
      ProjectGrant := some { ProjectID := "p1", GrantID := "g1" } } ]

/-- Three grants of a user. -/
def sampleGrants : List UserGrant := [ { ID := "ug1" }, { ID := "ug2" }, { ID := "ug3" } ]

/-- A handler whose queries return the sample dependents. -/
def sampleHandler : UsersHandler :=
  { NewUserGrantUserIDSearchQuery := fun id => Except.ok { Column := "grant.user_id", Value := id }
    UserGrants := fun _ _ => Except.ok sampleGrants
    NewMembershipUserIDQuery := fun id => Except.ok { Column := "member.user_id", Value := id }
    Memberships := fun _ _ => Except.ok sampleMemberships
    RemoveUserV2 := fun id _ _ =>
      Except.ok { ID := id, Sequence := 7, EventDate := 20, CreationDate := 0,
                  ResourceOwner := "org1" } }

/-- A handler whose queries return no dependents. -/
def lonelyHandler : UsersHandler :=
  { sampleHandler with
    UserGrants := fun _ _ => Except.ok []
    Memberships := fun _ _ => Except.ok [] }

/-- The error of an unreachable query side. -/
def queryUnavailable : CaosError :=
  { Kind := ErrorKind.Unavailable, ID := "QUERY-1", Message := "unavailable" }

/-- A handler whose membership query fails. -/
def brokenHandler : UsersHandler :=
  { sampleHandler with Memberships := fun _ _ => Except.error queryUnavailable }

/-- The SCIM error document the server writes for a user that does not exist. -/
def notFoundDocument : String :=
  "\x7b\"schemas\":[\"urn:ietf:params:scim:api:messages:2.0:Error\"],\"detail\":\"User could not be found\",\"status\":\"404\"\x7d"

/-- The `ScimError` that document decodes to. -/
def notFoundError : ScimError :=
  { Schemas := ["urn:ietf:params:scim:api:messages:2.0:Error"], ScimType := "",
    Detail := "User could not be found", Status := "404" }

/-- A decoder that knows the one document above; every other body, the empty one included, is
not a JSON document it can decode. -/
def sampleDecode (body : String) : Except String ScimError :=
  if body = notFoundDocument then Except.ok notFoundError else Except.error "EOF"

/-- A client whose server answers every request with the given response. -/
def clientAnswering (resp : Response) : ResourceClient :=
  { client := fun _ => Except.ok resp
    baseUrl := "http://localhost:8080/scim/v2/org1/Users"
    NewRequestWithContext := fun ctx method url body =>
      Except.ok { ctx := ctx, Method := method, URL := url, Header := [], Body := body }
    decodeScimError := sampleDecode }

/-- The response to the deletion of a user that is already deleted. -/
def notFoundResponse : Response :=
  { StatusCode := 404, Body := notFoundDocument, closeErr := none }

/-- The response `handleEmptyResponse` writes after a successful deletion: 204, no body. -/
def noContentResponse : Response :=
  { StatusCode := 204, Body := "", closeErr := none }

/-- A context with a bearer token in its outgoing metadata. -/
def sampleContext : Context := { outgoingAuthorization := some ["Bearer token"] }

/-! ## SCIM resources (`resources/user.go`, `resources/resource_handler.go`) -/

/-- A Go `[]byte`.  The conversions `[]byte(s)` and `string(b)` are the identity on the bytes,
so byte slices and strings share one representation; a nil byte slice is the empty one, which
is all `len(value) > 0` can tell. -/
abbrev Bytes := String

/-- The type `schemas.HttpURL` (a named `url.URL`), known here by its text. -/
structure HttpURL where
  raw : String
  deriving DecidableEq, Repr

/-- The type `language.Tag`, known here by its text. -/
structure LanguageTag where
  name : String
  deriving DecidableEq, Repr

/-- The zero value of `language.Tag`: the undetermined language. -/
def LanguageTag.Und : LanguageTag := { name := "und" }

/-- The tag `language.English`. -/
def LanguageTag.English : LanguageTag := { name := "en" }

/-- A `time.Time` as the resource metadata holds it: the instant, counted from the zero time,
and the location it is presented in. -/
structure Time where
  instant : Nat
  location : String
  deriving DecidableEq, Repr

/-- The method `time.Time.UTC` applied to a time whose instant is given: the same instant,
presented in UTC.  The location the time had before plays no part in the result. -/
def UTC (instant : Nat) : Time :=
  { instant := instant, location := "UTC" }

/-- The method `time.Time.IsZero`: whether the instant is the zero time. -/
def Time.IsZero (t : Time) : Bool :=
  t.instant == 0

/-- The function `strconv.FormatUint(i, base)` for a base from 2 to 10: the digits of `i` in that
base, most significant first, and "0" for zero. -/
def FormatUint (i : Nat) (base : Nat) : String :=
  if i = 0 then "0" else String.mk ((Nat.digits base i).reverse.map Nat.digitChar)

/-- The value a string of decimal digits denotes. -/
def decimalValue (s : String) : Nat :=
  Nat.ofDigits 10 (s.data.reverse.map (fun c => c.toNat - 48))

/-- The type `ResourceMeta` (resource_handler.go 31-37). -/
structure ResourceMeta where
  ResourceType : String
  Created : Time
  LastModified : Time
  Version : String
  Location : String
  deriving DecidableEq, Repr

/-- The type `Resource` (resource_handler.go 26-29); `Meta` is never nil where a resource is
built. -/
structure Resource where
  Schemas : List String
  Meta : ResourceMeta
  deriving DecidableEq, Repr

/-- The methods of `ResourceHandler` (resource_handler.go 13-17) that build a resource. -/
structure ResourceHandler where
  ResourceNameSingular : String
  ResourceNamePlural : String
  SchemaType : String
  deriving DecidableEq, Repr

/-- The request context as the SCIM resources read it: the origin of the domain context and the
SCIM context data the middleware sets (scim_context_middleware.go 28-31). -/
structure RequestContext where
  Origin : String
  ProvisioningDomain : String
  ExternalIDScopedMetadataKey : String
  deriving DecidableEq, Repr

/-- The constant `schemas.HandlerPrefix`; `authz.go` spells it out as "/scim/v2". -/
def HandlerPrefix : String := "/scim/v2"

/-- The function `buildLocation` (resource_handler.go 61-63). -/
def buildLocation (ctx : RequestContext) (handler : ResourceHandler) (id : String) : String :=
  ctx.Origin ++ HandlerPrefix ++ "/" ++ handler.ResourceNamePlural ++ "/" ++ id

/-- The function `buildResource` (resource_handler.go 43-59). -/
def buildResource (ctx : RequestContext) (handler : ResourceHandler) (details : ObjectDetails) :
    Resource :=
  let created := UTC details.CreationDate
  let created := if created.IsZero then UTC details.EventDate else created
  { Schemas := [handler.SchemaType]
    Meta := { ResourceType := handler.ResourceNameSingular
              Created := created
              LastModified := UTC details.EventDate
              Version := FormatUint details.Sequence 10
              Location := buildLocation ctx handler details.ID } }

/-- The type `ScimEntitlement` (user.go 45-50). -/
structure ScimEntitlement where
  Value : String
  Display : String
  Typ : String
  Primary : Bool
  deriving DecidableEq, Repr

/-- The type `ScimRole` (user.go 52-57). -/
structure ScimRole where
  Value : String
  Display : String
  Typ : String
  Primary : Bool
  deriving DecidableEq, Repr

/-- The type `ScimPhoto` (user.go 59-64). -/
structure ScimPhoto where
  Value : HttpURL
  Display : String
  Typ : String
  Primary : Bool
  deriving DecidableEq, Repr

/-- The type `ScimAddress` (user.go 66-75). -/
structure ScimAddress where
  Typ : String
  StreetAddress : String
  Locality : String
  Region : String
  PostalCode : String
  Country : String
  Formatted : String
  Primary : Bool
  deriving DecidableEq, Repr

/-- The type `ScimIms` (user.go 77-80). -/
structure ScimIms where
  Value : String
  Typ : String
  deriving DecidableEq, Repr

/-- The type `ScimEmail` (user.go 82-85). -/
structure ScimEmail where
  Value : String
  Primary : Bool
  deriving DecidableEq, Repr

/-- The type `ScimPhoneNumber` (user.go 87-90). -/
structure ScimPhoneNumber where
  Value : String
  Primary : Bool
  deriving DecidableEq, Repr

/-- The type `ScimUserName` (user.go 92-99). -/
structure ScimUserName where
  Formatted : String
  FamilyName : String
  GivenName : String
  MiddleName : String
  HonorificPrefix : String
  HonorificSuffix : String
  deriving DecidableEq, Repr

/-- The type `ScimUser` (user.go 21-43).  A nil pointer is `none`.  The five slices the
metadata holds keep nil (`none`) apart from empty (`some []`), which `json.Marshal` tells
apart; the code only ranges over `Emails` and `PhoneNumbers`, for which nil is the empty list. -/
structure ScimUser where
  Resource : Option Resource
  ID : String
  ExternalID : String
  UserName : String
  Name : Option ScimUserName
  DisplayName : String
  NickName : String
  ProfileUrl : Option HttpURL
  Title : String
  PreferredLanguage : LanguageTag
  Locale : String
  Timezone : String
  Active : Bool
  Emails : List ScimEmail
  PhoneNumbers : List ScimPhoneNumber
  Password : Option String
  Ims : Option (List ScimIms)
  Addresses : Option (List ScimAddress)
  Photos : Option (List ScimPhoto)
  Entitlements : Option (List ScimEntitlement)
  Roles : Option (List ScimRole)
  deriving DecidableEq, Repr

/-- The zero value `new(ScimUser)`. -/
def ScimUser.zero : ScimUser :=
  { Resource := none, ID := "", ExternalID := "", UserName := "", Name := none
    DisplayName := "", NickName := "", ProfileUrl := none, Title := ""
    PreferredLanguage := LanguageTag.Und, Locale := "", Timezone := "", Active := false
    Emails := [], PhoneNumbers := [], Password := none, Ims := none, Addresses := none
    Photos := none, Entitlements := none, Roles := none }

/-! ## SCIM user metadata (`resources/user_metadata.go`) -/

/-- The type `metadata.Key`, a string type.  The thirteen named keys are the constants the
switch of `getRawValueForMetadataKey` handles; `Unknown` stands for every other value of the
type, `metadata.KeyProvisioningDomain` among them. -/
inductive Key
  | Ims
  | Photos
  | Addresses
  | Entitlements
  | Roles
  | MiddleName
  | HonorificPrefix
  | HonorificSuffix
  | ExternalId
  | ProfileUrl
  | Title
  | Locale
  | Timezone
  | Unknown (name : String)
  deriving DecidableEq, Repr

/-- The type `metadata.ScopedKey`, a string type. -/
abbrev ScopedKey := String

/-- The type `command.AddMetadataEntry`. -/
structure AddMetadataEntry where
  Key : String
  Value : Bytes
  deriving DecidableEq, Repr

/-- What the SCIM resources use of packages that are not among the sources.
`ScimUserRelevantMetadataKeys` and `ScopeKey` belong to package `metadata`,
`LanguageIsDefined` to `domain` (`none` is a nil error), `HttpURLString` is the method `String`
of `*schemas.HttpURL` (called on a nil pointer too) and `ParseHTTPURL` is of `schemas`,
`IsEnabled` is the method of the user state.  The `marshal` fields are `json.Marshal` on a
non-nil slice of each element type, on a string and on a non-nil URL, and the `unmarshal` fields are `json.Unmarshal` into a slice
of each element type: given the bytes and the slice as it is, the error (if any) and the slice
as the call leaves it. -/
structure Packages where
  ScimUserRelevantMetadataKeys : List Key
  ScopeKey : RequestContext → Key → ScopedKey
  LanguageIsDefined : LanguageTag → Option CaosError
  HttpURLString : Option HttpURL → Outcome String
  ParseHTTPURL : String → Except String HttpURL
  IsEnabled : Nat → Bool
  marshalIms : List ScimIms → Except String Bytes
  marshalPhotos : List ScimPhoto → Except String Bytes
  marshalAddresses : List ScimAddress → Except String Bytes
  marshalEntitlements : List ScimEntitlement → Except String Bytes
  marshalRoles : List ScimRole → Except String Bytes
  marshalString : String → Except String Bytes
  marshalURL : HttpURL → Except String Bytes
  unmarshalIms : Bytes → Option (List ScimIms) → Option String × Option (List ScimIms)
  unmarshalPhotos : Bytes → Option (List ScimPhoto) → Option String × Option (List ScimPhoto)
  unmarshalAddresses :
    Bytes → Option (List ScimAddress) → Option String × Option (List ScimAddress)
  unmarshalEntitlements :
    Bytes → Option (List ScimEntitlement) → Option String × Option (List ScimEntitlement)
  unmarshalRoles : Bytes → Option (List ScimRole) → Option String × Option (List ScimRole)

/-- A Go `interface{}` value as `getRawValueForMetadataKey` can return it: the nil interface, or
a value boxed with its type.  A nil slice or nil pointer boxed in an interface is not the nil
interface. -/
inductive RawValue
  | Nil
  | Ims (value : Option (List ScimIms))
  | Photos (value : Option (List ScimPhoto))
  | Addresses (value : Option (List ScimAddress))
  | Entitlements (value : Option (List ScimEntitlement))
  | Roles (value : Option (List ScimRole))
  | Str (value : String)
  | Url (value : Option HttpURL)
  deriving DecidableEq, Repr

/-- The function `json.Marshal` on a slice: a nil slice encodes as the JSON value `null`, as do
a nil pointer and the nil interface. -/
def marshalSlice {α : Type} (marshal : List α → Except String Bytes) :
    Option (List α) → Except String Bytes
  | none => Except.ok "null"
  | some values => marshal values

/-- The function `getRawValueForMetadataKey` (user_metadata.go 122-162). -/
def getRawValueForMetadataKey (user : ScimUser) : Key → Outcome RawValue
  | Key.Ims => Outcome.returned (RawValue.Ims user.Ims)
  | Key.Photos => Outcome.returned (RawValue.Photos user.Photos)
  | Key.Addresses => Outcome.returned (RawValue.Addresses user.Addresses)
  | Key.Entitlements => Outcome.returned (RawValue.Entitlements user.Entitlements)
  | Key.Roles => Outcome.returned (RawValue.Roles user.Roles)
  | Key.MiddleName =>
      match user.Name with
      | none => Outcome.returned (RawValue.Str "")
      | some name => Outcome.returned (RawValue.Str name.MiddleName)
  | Key.HonorificPrefix =>
      match user.Name with
      | none => Outcome.returned (RawValue.Str "")
      | some name => Outcome.returned (RawValue.Str name.HonorificPrefix)
  | Key.HonorificSuffix =>
      match user.Name with
      | none => Outcome.returned (RawValue.Str "")
      | some name => Outcome.returned (RawValue.Str name.HonorificSuffix)
  | Key.ExternalId => Outcome.returned (RawValue.Str user.ExternalID)
  | Key.ProfileUrl => Outcome.returned (RawValue.Url user.ProfileUrl)
  | Key.Title => Outcome.returned (RawValue.Str user.Title)
  | Key.Locale => Outcome.returned (RawValue.Str user.Locale)
  | Key.Timezone => Outcome.returned (RawValue.Str user.Timezone)
  | Key.Unknown name => Outcome.panicked ("unknown metadata key" ++ name)

/-- The call `json.Marshal(value)` of `getValueForMetadataKey` on a boxed value.  The switch
reaches it for the five slice keys only. -/
def Packages.Marshal (p : Packages) : RawValue → Except String Bytes
  | RawValue.Ims value => marshalSlice p.marshalIms value
  | RawValue.Photos value => marshalSlice p.marshalPhotos value
  | RawValue.Addresses value => marshalSlice p.marshalAddresses value
  | RawValue.Entitlements value => marshalSlice p.marshalEntitlements value
  | RawValue.Roles value => marshalSlice p.marshalRoles value
  | RawValue.Str value => p.marshalString value
  | RawValue.Url none => Except.ok "null"
  | RawValue.Url (some url) => p.marshalURL url
  | RawValue.Nil => Except.ok "null"

/-- The function `getValueForMetadataKey` (user_metadata.go 94-120): the bytes or the error.  A
failing type assertion panics. -/
def getValueForMetadataKey (p : Packages) (user : ScimUser) (key : Key) :
    Outcome (Except String Bytes) :=
  match getRawValueForMetadataKey user key with
  | Outcome.panicked message => Outcome.panicked message
  | Outcome.returned RawValue.Nil => Outcome.returned (Except.ok "")
  | Outcome.returned value =>
      match key with
      | Key.Entitlements | Key.Ims | Key.Photos | Key.Addresses | Key.Roles =>
          Outcome.returned (p.Marshal value)
      | Key.ProfileUrl =>
          match value with
          | RawValue.Url url =>
              match p.HttpURLString url with
              | Outcome.panicked message => Outcome.panicked message
              | Outcome.returned text => Outcome.returned (Except.ok text)
          | _ => Outcome.panicked "interface conversion: interface is not *schemas.HttpURL"
      | _ =>
          match value with
          | RawValue.Str valueStr =>
              if valueStr = "" then Outcome.returned (Except.ok "")
              else Outcome.returned (Except.ok valueStr)
          | _ => Outcome.panicked "interface conversion: interface is not string"

/-- The loop of `mapMetadataToCommands` (user_metadata.go 76-89) over the remaining keys, `md`
being the entries appended so far. -/
def mapMetadataToCommandsLoop (p : Packages) (ctx : RequestContext) (user : ScimUser) :
    List Key → List AddMetadataEntry → Outcome (List AddMetadataEntry)
  | [], md => Outcome.returned md
  | key :: rest, md =>
      match getValueForMetadataKey p user key with
      | Outcome.panicked message => Outcome.panicked message
      | Outcome.returned (Except.error _) => mapMetadataToCommandsLoop p ctx user rest md
      | Outcome.returned (Except.ok value) =>
          if value.length > 0 then
            mapMetadataToCommandsLoop p ctx user rest
              (md ++ [{ Key := p.ScopeKey ctx key, Value := value }])
          else
            mapMetadataToCommandsLoop p ctx user rest md

/-- The method `UsersHandler.mapMetadataToCommands` (user_metadata.go 74-92). -/
def UsersHandler.mapMetadataToCommands (p : Packages) (ctx : RequestContext) (user : ScimUser) :
    Outcome (List AddMetadataEntry) :=
  mapMetadataToCommandsLoop p ctx user p.ScimUserRelevantMetadataKeys []

/-- The metadata map, from scoped key to stored bytes. -/
abbrev MetadataMap := ScopedKey → Option Bytes

/-- The map assignment `metadataMap[key] = value`. -/
def MetadataMap.set (md : MetadataMap) (key : ScopedKey) (value : Bytes) : MetadataMap :=
  fun k => if k = key then some value else md k

/-- The map without the entry of a key. -/
def MetadataMap.erase (md : MetadataMap) (key : ScopedKey) : MetadataMap :=
  fun k => if k = key then none else md k

/-- The loop of `UsersHandler.queryMetadataForUser` (user_metadata.go 43-46) over the stored
entries: each entry is assigned to its key, a later one replacing an earlier one. -/
def metadataMapOf (entries : List AddMetadataEntry) : MetadataMap :=
  entries.foldl (fun md entry => md.set entry.Key entry.Value) (fun _ => none)

/-- The function `extractScalarMetadata` (user_metadata.go 164-171). -/
def extractScalarMetadata (p : Packages) (ctx : RequestContext) (md : MetadataMap) (key : Key) :
    String :=
  match md (p.ScopeKey ctx key) with
  | none => ""
  | some val => val

/-- The function `extractHttpURLMetadata` (user_metadata.go 173-186). -/
def extractHttpURLMetadata (p : Packages) (ctx : RequestContext) (md : MetadataMap)
    (key : Key) : Option HttpURL :=
  match md (p.ScopeKey ctx key) with
  | none => none
  | some val =>
      match p.ParseHTTPURL val with
      | Except.error _ => none
      | Except.ok url => some url

/-- The function `extractJsonMetadata` (user_metadata.go 188-195): the error and the target as
the call leaves it. -/
def extractJsonMetadata {α : Type} (p : Packages) (ctx : RequestContext) (md : MetadataMap)
    (key : Key) (unmarshal : Bytes → α → Option String × α) (v : α) : Option String × α :=
  match md (p.ScopeKey ctx key) with
  | none => (none, v)
  | some val => unmarshal val v

/-! ## Mapping SCIM users to commands and back (`resources/user_mapping.go`) -/

/-- The fields of `scim_config.Config` the mapping reads. -/
structure Config where
  EmailVerified : Bool
  PhoneVerified : Bool
  deriving DecidableEq, Repr

/-- The type `command.Email`, with the fields the mapping sets. -/
structure Email where
  Address : String
  Verified : Bool
  deriving DecidableEq, Repr

/-- The type `command.Phone`, with the fields the mapping sets. -/
structure Phone where
  Number : String
  Verified : Bool
  deriving DecidableEq, Repr

/-- The type `command.AddHuman`, with the fields the mapping sets and the preferred language,
which a struct literal that does not name it leaves at its zero value. -/
structure AddHuman where
  Username : String
  NickName : String
  DisplayName : String
  Email : Email
  Phone : Phone
  Metadata : List AddMetadataEntry
  Password : String
  FirstName : String
  LastName : String
  PreferredLanguage : LanguageTag
  deriving DecidableEq, Repr

/-- The method `UsersHandler.mapPrimaryEmail` (user_mapping.go 49-62). -/
def UsersHandler.mapPrimaryEmail (config : Config) : List ScimEmail → Email
  | [] => { Address := "", Verified := false }
  | email :: rest =>
      if !email.Primary then UsersHandler.mapPrimaryEmail config rest
      else { Address := email.Value, Verified := config.EmailVerified }

/-- The method `UsersHandler.mapPrimaryPhone` (user_mapping.go 64-77). -/
def UsersHandler.mapPrimaryPhone (config : Config) : List ScimPhoneNumber → Phone
  | [] => { Number := "", Verified := false }
  | phone :: rest =>
      if !phone.Primary then UsersHandler.mapPrimaryPhone config rest
      else { Number := phone.Value, Verified := config.PhoneVerified }

/-- The method `UsersHandler.mapToAddHuman` (user_mapping.go 15-47): the command and the SCIM
user as the call leaves it (the method writes to the user it is given).  The error it returns
is always nil. -/
def UsersHandler.mapToAddHuman (p : Packages) (config : Config) (ctx : RequestContext)
    (scimUser : ScimUser) : Outcome (AddHuman × ScimUser) :=
  match UsersHandler.mapMetadataToCommands p ctx scimUser with
  | Outcome.panicked message => Outcome.panicked message
  | Outcome.returned metadata =>
      let human : AddHuman :=
        { Username := scimUser.UserName
          NickName := scimUser.NickName
          DisplayName := scimUser.DisplayName
          Email := UsersHandler.mapPrimaryEmail config scimUser.Emails
          Phone := UsersHandler.mapPrimaryPhone config scimUser.PhoneNumbers
          Metadata := metadata
          Password := "", FirstName := "", LastName := ""
          PreferredLanguage := LanguageTag.Und }
      let (human, scimUser) :=
        match scimUser.Password with
        | some password => ({ human with Password := password }, { scimUser with Password := none })
        | none => (human, scimUser)
      let human :=
        match scimUser.Name with
        | some name =>
            let human := { human with FirstName := name.GivenName, LastName := name.FamilyName }
            if human.DisplayName = "" then { human with DisplayName := name.Formatted }
            else human
        | none => human
      match p.LanguageIsDefined scimUser.PreferredLanguage with
      | some _ =>
          Outcome.returned ({ human with PreferredLanguage := LanguageTag.English },
            { scimUser with PreferredLanguage := LanguageTag.English })
      | none => Outcome.returned (human, scimUser)

/-- The type `query.Human`, with the fields the mapping reads. -/
structure Human where
  FirstName : String
  LastName : String
  NickName : String
  DisplayName : String
  PreferredLanguage : LanguageTag
  Email : String
  Phone : String
  deriving DecidableEq, Repr

/-- The type `query.User`, with the fields the mapping reads; the dates are instants. -/
structure User where
  ID : String
  CreationDate : Nat
  ChangeDate : Nat
  Sequence : Nat
  State : Nat
  Username : String
  Human : Option Human
  deriving DecidableEq, Repr

/-- The resource handler the users handler is (user.go 109-127): `schemas.UserResourceType`,
`schemas.UsersResourceType` and `schemas.IdUser`. -/
def usersResourceHandler : ResourceHandler :=
  { ResourceNameSingular := "User", ResourceNamePlural := "Users"
    SchemaType := "urn:ietf:params:scim:schemas:core:2.0:User" }

/-- The method `UsersHandler.buildResourceForQuery` (user_mapping.go 170-181). -/
def UsersHandler.buildResourceForQuery (ctx : RequestContext) (user : User) : Resource :=
  { Schemas := [usersResourceHandler.SchemaType]
    Meta := { ResourceType := usersResourceHandler.ResourceNameSingular
              Created := UTC user.CreationDate
              LastModified := UTC user.ChangeDate
              Version := FormatUint user.Sequence 10
              Location := buildLocation ctx usersResourceHandler user.ID } }

/-- The function `mapHumanToScimUser` (user_mapping.go 138-168): the SCIM user as the call
leaves it. -/
def mapHumanToScimUser (p : Packages) (ctx : RequestContext) (human : Human) (user : ScimUser)
    (md : MetadataMap) : ScimUser :=
  let user :=
    { user with
      DisplayName := human.DisplayName
      NickName := human.NickName
      PreferredLanguage := human.PreferredLanguage
      Name := some
        { Formatted := human.DisplayName
          FamilyName := human.LastName
          GivenName := human.FirstName
          MiddleName := extractScalarMetadata p ctx md Key.MiddleName
          HonorificPrefix := extractScalarMetadata p ctx md Key.HonorificPrefix
          HonorificSuffix := extractScalarMetadata p ctx md Key.HonorificSuffix } }
  let user :=
    if human.Email ≠ "" then { user with Emails := [{ Value := human.Email, Primary := true }] }
    else user
  if human.Phone ≠ "" then
    { user with PhoneNumbers := [{ Value := human.Phone, Primary := true }] }
  else user

/-- The method `UsersHandler.mapToScimUser` (user_mapping.go 93-136).  A failing
`extractJsonMetadata` is logged as a warning and the mapping goes on. -/
def UsersHandler.mapToScimUser (p : Packages) (ctx : RequestContext) (user : User)
    (md : MetadataMap) : ScimUser :=
  let scimUser : ScimUser :=
    { Resource := some (UsersHandler.buildResourceForQuery ctx user)
      ID := user.ID
      ExternalID := extractScalarMetadata p ctx md Key.ExternalId
      UserName := user.Username
      Name := none
      DisplayName := ""
      NickName := ""
      ProfileUrl := extractHttpURLMetadata p ctx md Key.ProfileUrl
      Title := extractScalarMetadata p ctx md Key.Title
      PreferredLanguage := LanguageTag.Und
      Locale := extractScalarMetadata p ctx md Key.Locale
      Timezone := extractScalarMetadata p ctx md Key.Timezone
      Active := p.IsEnabled user.State
      Emails := []
      PhoneNumbers := []
      Password := none
      Ims := some []
      Addresses := some []
      Photos := some []
      Entitlements := some []
      Roles := some [] }
  let scimUser :=
    { scimUser with Ims := (extractJsonMetadata p ctx md Key.Ims p.unmarshalIms scimUser.Ims).2 }
  let scimUser :=
    { scimUser with
      Addresses :=
        (extractJsonMetadata p ctx md Key.Addresses p.unmarshalAddresses scimUser.Addresses).2 }
  let scimUser :=
    { scimUser with
      Photos := (extractJsonMetadata p ctx md Key.Photos p.unmarshalPhotos scimUser.Photos).2 }
  let scimUser :=
    { scimUser with
      Entitlements :=
        (extractJsonMetadata p ctx md Key.Entitlements p.unmarshalEntitlements
          scimUser.Entitlements).2 }
  let scimUser :=
    { scimUser with
      Roles := (extractJsonMetadata p ctx md Key.Roles p.unmarshalRoles scimUser.Roles).2 }
  match user.Human with
  | some human => mapHumanToScimUser p ctx human scimUser md
  | none => scimUser

/-! ## Concrete inputs for the SCIM resources -/

/-- The thirteen keys the switch of `getRawValueForMetadataKey` handles, in its order. -/
def handledKeys : List Key :=
  [Key.Ims, Key.Photos, Key.Addresses, Key.Entitlements, Key.Roles, Key.MiddleName,
   Key.HonorificPrefix, Key.HonorificSuffix, Key.ExternalId, Key.ProfileUrl, Key.Title,
   Key.Locale, Key.Timezone]

/-- A text for each key. -/
def Key.text : Key → String
  | Key.Ims => "urn:zitadel:scim:ims"
  | Key.Photos => "urn:zitadel:scim:photos"
  | Key.Addresses => "urn:zitadel:scim:addresses"
  | Key.Entitlements => "urn:zitadel:scim:entitlements"
  | Key.Roles => "urn:zitadel:scim:roles"
  | Key.MiddleName => "urn:zitadel:scim:name.middleName"
  | Key.HonorificPrefix => "urn:zitadel:scim:name.honorificPrefix"
  | Key.HonorificSuffix => "urn:zitadel:scim:name.honorificSuffix"
  | Key.ExternalId => "urn:zitadel:scim:externalId"
  | Key.ProfileUrl => "urn:zitadel:scim:profileURL"
  | Key.Title => "urn:zitadel:scim:title"
  | Key.Locale => "urn:zitadel:scim:locale"
  | Key.Timezone => "urn:zitadel:scim:timezone"
  | Key.Unknown name => name

/-- A sample of the absent packages.  The table holds the handled keys; scoping replaces the
external id key by the key of the context and leaves the others as they are; a language is
defined unless it is the undetermined one; `String` of a URL is its text and the empty string
on a nil pointer; the JSON encoders and decoders know a few documents only. -/
def samplePackages : Packages :=
  { ScimUserRelevantMetadataKeys := handledKeys
    ScopeKey := fun ctx key =>
      if key = Key.ExternalId then ctx.ExternalIDScopedMetadataKey else key.text
    LanguageIsDefined := fun tag =>
      if tag = LanguageTag.Und then
        some { Kind := ErrorKind.PreconditionFailed, ID := "LANG-lg4DP",
               Message := "Errors.Language.NotParsed" }
      else none
    HttpURLString := fun url =>
      match url with
      | none => Outcome.returned ""
      | some u => Outcome.returned u.raw
    ParseHTTPURL := fun text =>
      if text.startsWith "http" then Except.ok { raw := text } else Except.error "invalid url"
    IsEnabled := fun state => state == 1
    marshalIms := fun xs => Except.ok ("[" ++ String.intercalate "," (xs.map (·.Value)) ++ "]")
    marshalPhotos := fun xs =>
      Except.ok ("[" ++ String.intercalate "," (xs.map (·.Value.raw)) ++ "]")
    marshalAddresses := fun xs =>
      Except.ok ("[" ++ String.intercalate "," (xs.map (·.Formatted)) ++ "]")
    marshalEntitlements := fun xs =>
      Except.ok ("[" ++ String.intercalate "," (xs.map (·.Value)) ++ "]")
    marshalRoles := fun xs => Except.ok ("[" ++ String.intercalate "," (xs.map (·.Value)) ++ "]")
    marshalString := fun s => Except.ok ("\"" ++ s ++ "\"")
    marshalURL := fun u => Except.ok ("\"" ++ u.raw ++ "\"")
    unmarshalIms := fun data v =>
      if data = "[]" then (none, some []) else if data = "null" then (none, none)
      else (some "invalid character", v)
    unmarshalPhotos := fun data v =>
      if data = "[]" then (none, some []) else if data = "null" then (none, none)
      else (some "invalid character", v)
    unmarshalAddresses := fun data v =>
      if data = "[]" then (none, some []) else if data = "null" then (none, none)
      else (some "invalid character", v)
    unmarshalEntitlements := fun data v =>
      if data = "[]" then (none, some []) else if data = "null" then (none, none)
      else (some "invalid character", v)
    unmarshalRoles := fun data v =>
      if data = "[]" then (none, some []) else if data = "null" then (none, none)
      else (some "invalid character", v) }

/-- The sample packages with a method `String` that dereferences its receiver, as
`url.URL.String` does: on a nil pointer it panics. -/
def nilUnsafePackages : Packages :=
  { samplePackages with
    HttpURLString := fun url =>
      match url with
      | none => Outcome.panicked "invalid memory address or nil pointer dereference"
      | some u => Outcome.returned u.raw }

/-- The request context the middleware builds when no provisioning domain is stored
(scim_context_middleware.go 28-31). -/
def sampleRequestContext : RequestContext :=
  { Origin := "https://zitadel.example", ProvisioningDomain := ""
    ExternalIDScopedMetadataKey := Key.text Key.ExternalId }

/-- The configuration with unverified email and phone. -/
def sampleScimConfig : Config := { EmailVerified := false, PhoneVerified := false }

/-- The user of `TestCreateUser` (users_create_test.go 21-25): only the external id, the user
name and the password are set. -/
def testUser : ScimUser :=
  { ScimUser.zero with
    ExternalID := "external-id-1", UserName := "my-user-name", Password := some "Password1!" }

/-- A user with a display name, a formatted name, a title and a defined preferred language. -/
def germanUser : ScimUser :=
  { ScimUser.zero with
    ExternalID := "external-id-2", UserName := "hans", DisplayName := "Hans M."
    Name := some { Formatted := "Hans Muster", FamilyName := "Muster", GivenName := "Hans"
                   MiddleName := "Peter", HonorificPrefix := "", HonorificSuffix := "" }
    Title := "Dr.", PreferredLanguage := { name := "de" } }

/-- A command result of a first write: sequence 42, no creation timestamp. -/
def sampleDetails : ObjectDetails :=
  { ID := "u1", Sequence := 42, EventDate := 20, CreationDate := 0, ResourceOwner := "org1" }

/-- A stored human user. -/
def storedUser : User :=
  { ID := "u1", CreationDate := 10, ChangeDate := 20, Sequence := 42, State := 1
    Username := "hans"
    Human := some { FirstName := "Hans", LastName := "Muster", NickName := "", DisplayName := "Hans M."
                    PreferredLanguage := { name := "de" }, Email := "hans@example.com"
                    Phone := "" } }

/-- Stored metadata whose ims bytes are not JSON and whose profile URL does not parse. -/
def brokenMetadata : MetadataMap :=
  ((metadataMapOf []).set (Key.text Key.Ims) "not json").set (Key.text Key.ProfileUrl) "ftp"
    |>.set (Key.text Key.Title) "Dr."

/-! ## Entries and scalar values of the metadata mapping -/

/-- The entry one round of the loop of `mapMetadataToCommands` appends for a key, if any: the
scoped key with the value, when the value was computed without error and is not empty. -/
def entryFor (p : Packages) (ctx : RequestContext) (user : ScimUser) (key : Key) :
    Option AddMetadataEntry :=
  match getValueForMetadataKey p user key with
  | Outcome.returned (Except.ok value) =>
      if value.length > 0 then some { Key := p.ScopeKey ctx key, Value := value } else none
  | _ => none

/-- The scalar keys: those whose value is a string of the user. -/
def scalarKeys : List Key :=
  [Key.ExternalId, Key.Title, Key.Locale, Key.Timezone, Key.MiddleName, Key.HonorificPrefix,
   Key.HonorificSuffix]

/-- The value a SCIM user carries for a scalar key; the name parts of a user without a name are
empty. -/
def ScimUser.scalar (user : ScimUser) : Key → String
  | Key.ExternalId => user.ExternalID
  | Key.Title => user.Title
  | Key.Locale => user.Locale
  | Key.Timezone => user.Timezone
  | Key.MiddleName => (user.Name.map (fun name => name.MiddleName)).getD ""
  | Key.HonorificPrefix => (user.Name.map (fun name => name.HonorificPrefix)).getD ""
  | Key.HonorificSuffix => (user.Name.map (fun name => name.HonorificSuffix)).getD ""
  | _ => ""

/-! ## The SCIM integration client: creating a user (`client.go` 43-85) -/

/-- The body handed to `doWithJsonBody`, an `interface{}`: the SCIM user on the call from
`Create`, the marshalled bytes on the call `doWithJsonBody` makes to itself. -/
inductive JsonBody
  | User (user : ScimUser)
  | Bytes (raw : Bytes)
  deriving DecidableEq, Repr

/-- The functions of `encoding/json` the client calls on users and bodies: `json.Marshal` of a
SCIM user, which may fail; `json.Marshal` of a byte slice, which never fails (it is the
base64 text of the bytes, quoted); and the decoding of a response body into a SCIM user. -/
structure JsonCodec where
  marshalUser : ScimUser → Except GoError Bytes
  marshalBytes : Bytes → Bytes
  decodeUser : String → Except String ScimUser

/-- The call `json.Marshal(body)` on the body of `doWithJsonBody`. -/
def JsonCodec.Marshal (codec : JsonCodec) : JsonBody → Except GoError Bytes
  | JsonBody.User user => codec.marshalUser user
  | JsonBody.Bytes raw => Except.ok (codec.marshalBytes raw)

/-- The constant `http.MethodPost`. -/
def MethodPost : String := "POST"

/-- The constant `middleware.ContentTypeScim`. -/
def ContentTypeScim : String := "application/scim+json"

/-- The method `ResourceClient.doWithBody` (client.go 77-85). -/
def ResourceClient.doWithBody {α : Type} (c : ResourceClient) (ctx : Context)
    (method url : String) (body : Bytes) (responseEntity : Option (String → Except String α)) :
    Outcome (Option α × Option GoError) :=
  match c.NewRequestWithContext ctx method (c.baseUrl ++ url) (some body) with
  | Except.error err => Outcome.returned (none, some err)
  | Except.ok req =>
      c.doReq { req with Header := headerSet req.Header "Content-Type" ContentTypeScim }
        responseEntity

/-- A step of the client that is visible from outside: an encoding of a body, or a request
handed to `doWithBody`. -/
inductive ClientStep
  | Marshal (body : JsonBody)
  | DoWithBody (method url : String) (body : Bytes)
  deriving DecidableEq, Repr

/-- The method `ResourceClient.doWithJsonBody` (client.go 68-75), run for at most `fuel` calls:
the outcome, `none` when the calls are used up before it returns, and the steps taken.  After
a successful `json.Marshal` the method calls itself with the marshalled bytes as the body
(client.go 74); it has no call to `doWithBody`. -/
def ResourceClient.doWithJsonBody {α : Type} (c : ResourceClient) (codec : JsonCodec)
    (ctx : Context) (method url : String) (responseEntity : Option (String → Except String α)) :
    Nat → JsonBody → Option (Outcome (Option α × Option GoError)) × List ClientStep
  | 0, _ => (none, [])
  | fuel + 1, body =>
      match codec.Marshal body with
      | Except.error err => (some (Outcome.returned (none, some err)), [ClientStep.Marshal body])
      | Except.ok rawBody =>
          let rest := ResourceClient.doWithJsonBody c codec ctx method url responseEntity fuel
            (JsonBody.Bytes rawBody)
          (rest.1, ClientStep.Marshal body :: rest.2)

/-- The method `ResourceClient.Create` (client.go 43-47), run for at most `fuel` calls of
`doWithJsonBody`: the response user and the error, `none` when it does not return within the
fuel, and the steps taken. -/
def ResourceClient.Create (c : ResourceClient) (codec : JsonCodec) (ctx : Context)
    (user : ScimUser) (fuel : Nat) :
    Option (Outcome (ScimUser × Option GoError)) × List ClientStep :=
  match c.doWithJsonBody codec ctx MethodPost "" (some codec.decodeUser) fuel
      (JsonBody.User user) with
  | (none, steps) => (none, steps)
  | (some (Outcome.panicked message), steps) => (some (Outcome.panicked message), steps)
  | (some (Outcome.returned (responseUser, err)), steps) =>
      (some (Outcome.returned (responseUser.getD ScimUser.zero, err)), steps)

/-- The method `ResourceClient.CreateRaw` (client.go 49-53), which does go through
`doWithBody`. -/
def ResourceClient.CreateRaw (c : ResourceClient) (codec : JsonCodec) (ctx : Context)
    (body : Bytes) : Outcome (ScimUser × Option GoError) :=
  match c.doWithBody ctx MethodPost "" body (some codec.decodeUser) with
  | Outcome.panicked message => Outcome.panicked message
  | Outcome.returned (user, err) => Outcome.returned (user.getD ScimUser.zero, err)

/-- A codec for the examples: a user encodes to its user name in braces, bytes encode to
themselves in quotes, and no body decodes. -/
def sampleCodec : JsonCodec :=
  { marshalUser := fun user => Except.ok ("\x7b" ++ user.UserName ++ "\x7d")
    marshalBytes := fun raw => "\"" ++ raw ++ "\""
    decodeUser := fun _ => Except.error "EOF" }

/-- A client whose server answers every request with 201 Created. -/
def createdClient : ResourceClient :=
  clientAnswering { StatusCode := 201, Body := "", closeErr := none }

/-! ## Routes and permissions (`server.go`, `authz.go`) -/

/-- A route of the router: the HTTP method and the path template below the handler prefix. -/
structure Route where
  Method : String
  Path : String
  deriving DecidableEq, Repr

/-- The function `mapResource` (server.go 47-57): the routes it registers, in order.  The value
of `http.OrgIdInPathVariable`, which is not among the sources, is a parameter. -/
def mapResource (orgIdInPathVariable : String) (handler : ResourceHandler) : List Route :=
  let resourceRouter := "/" ++ orgIdInPathVariable ++ "/" ++ handler.ResourceNamePlural
  [ { Method := "POST", Path := resourceRouter ++ "" },
    { Method := "GET", Path := resourceRouter ++ "" },
    { Method := "POST", Path := resourceRouter ++ "/.search" },
    { Method := "GET", Path := resourceRouter ++ "/\x7bid\x7d" },
    { Method := "PUT", Path := resourceRouter ++ "/\x7bid\x7d" },
    { Method := "DELETE", Path := resourceRouter ++ "/\x7bid\x7d" } ]

/-- The permissions `authz.go` names. -/
inductive Permission
  | UserWrite
  | UserRead
  | UserDelete
  deriving DecidableEq, Repr

/-- The variable `AuthMapping` (authz.go 9-25): the keys with their required permission.  The
value of `http.OrgIdInPathVariable` is a parameter. -/
def AuthMapping (orgIdInPathVariable : String) : List (String × Permission) :=
  [ ("POST:/scim/v2/" ++ orgIdInPathVariable ++ "/Users", Permission.UserWrite),
    ("POST:/scim/v2/" ++ orgIdInPathVariable ++ "/Users/.search", Permission.UserRead),
    ("GET:/scim/v2/" ++ orgIdInPathVariable ++ "/Users", Permission.UserRead),
    ("GET:/scim/v2/" ++ orgIdInPathVariable ++ "/Users/\x7bid\x7d", Permission.UserRead),
    ("DELETE:/scim/v2/" ++ orgIdInPathVariable ++ "/Users/\x7bid\x7d", Permission.UserDelete) ]

/-- The key under which the permission of a route is looked up: the method, a colon, and the
path of the route below the handler prefix the server is registered with (server.go 28). -/
def Route.authKey (r : Route) : String :=
  r.Method ++ ":" ++ HandlerPrefix ++ r.Path

/-- The permission `AuthMapping` requires for a route, if it has an entry for it. -/
def requiredPermission (orgIdInPathVariable : String) (r : Route) : Option Permission :=
  ((AuthMapping orgIdInPathVariable).find? (fun entry => entry.1 == r.authKey)).map
    (fun entry => entry.2)

/-- A value for `http.OrgIdInPathVariable`. -/
def sampleOrgIdInPathVariable : String := "\x7borgId\x7d"

/-! # Theorems -/

/-! ## Lemmas on the call lists and on the shared tail -/

theorem pushedCommands_append (xs ys : List Call) :
    pushedCommands (xs ++ ys) = pushedCommands xs ++ pushedCommands ys := by
  induction xs with
  | nil => rfl
  | cons x xs ih => cases x <;> simp [pushedCommands, ih]

theorem encryptedValues_append (xs ys : List Call) :
    encryptedValues (xs ++ ys) = encryptedValues xs ++ encryptedValues ys := by
  induction xs with
  | nil => rfl
  | cons x xs ih => cases x <;> simp [encryptedValues, ih]

theorem reducedBatches_append (xs ys : List Call) :
    reducedBatches (xs ++ ys) = reducedBatches xs ++ reducedBatches ys := by
  induction xs with
  | nil => rfl
  | cons x xs ih => cases x <;> simp [reducedBatches, ih]

/-- The shared tail when the event store rejects the append. -/
theorem pushAndReduce_of_pushErr (c : Commands) (wm : InstanceSMTPConfigWriteModel)
    (cmd : Command) (calls : List Call) (e : CaosError)
    (h : c.eventstore.pushErr c.eventstore.events [cmd] = some e) :
    c.pushAndReduce wm cmd calls =
      { details := none, err := some e, eventstore := c.eventstore,
        calls := calls ++ [Call.Push [cmd]], model := some wm } := by
  simp [Commands.pushAndReduce, Eventstore.Push, h]

/-- The shared tail when the event store accepts the append. -/
theorem pushAndReduce_of_pushed (c : Commands) (wm : InstanceSMTPConfigWriteModel)
    (cmd : Command) (calls : List Call)
    (h : c.eventstore.pushErr c.eventstore.events [cmd] = none) :
    c.pushAndReduce wm cmd calls =
      { details := some (writeModelToObjectDetails
          ((stamp c.eventstore.clock c.eventstore.events [cmd]).foldl reduceEvent wm).WriteModel)
        err := none
        eventstore := { c.eventstore with
          events := c.eventstore.events ++ stamp c.eventstore.clock c.eventstore.events [cmd]
          clock := c.eventstore.clock + 1 }
        calls := calls ++ [Call.Push [cmd],
          Call.Reduce (stamp c.eventstore.clock c.eventstore.events [cmd])]
        model := some
          ((stamp c.eventstore.clock c.eventstore.events [cmd]).foldl reduceEvent wm) } := by
  simp [Commands.pushAndReduce, Eventstore.Push, h, AppendAndReduce]

theorem pushAndReduce_pushedCommands (c : Commands) (wm : InstanceSMTPConfigWriteModel)
    (cmd : Command) (calls : List Call) :
    pushedCommands (c.pushAndReduce wm cmd calls).calls = pushedCommands calls ++ [cmd] := by
  cases h : c.eventstore.pushErr c.eventstore.events [cmd] with
  | some e =>
    simp [pushAndReduce_of_pushErr c wm cmd calls e h, pushedCommands_append, pushedCommands]
  | none =>
    simp [pushAndReduce_of_pushed c wm cmd calls h, pushedCommands_append, pushedCommands]

theorem pushAndReduce_encryptedValues (c : Commands) (wm : InstanceSMTPConfigWriteModel)
    (cmd : Command) (calls : List Call) :
    encryptedValues (c.pushAndReduce wm cmd calls).calls = encryptedValues calls := by
  cases h : c.eventstore.pushErr c.eventstore.events [cmd] with
  | some e =>
    simp [pushAndReduce_of_pushErr c wm cmd calls e h, encryptedValues_append, encryptedValues]
  | none =>
    simp [pushAndReduce_of_pushed c wm cmd calls h, encryptedValues_append, encryptedValues]

/-- The shared tail returns a NotFound error only if the event store did. -/
theorem pushAndReduce_errKind_ne_notFound (c : Commands) (wm : InstanceSMTPConfigWriteModel)
    (cmd : Command) (calls : List Call)
    (hPush : ∀ log cmds e, c.eventstore.pushErr log cmds = some e → e.Kind ≠ ErrorKind.NotFound) :
    (c.pushAndReduce wm cmd calls).errKind ≠ some ErrorKind.NotFound := by
  cases h : c.eventstore.pushErr c.eventstore.events [cmd] with
  | some e =>
    simpa [pushAndReduce_of_pushErr c wm cmd calls e h, Run.errKind] using hPush _ _ e h
  | none => simp [pushAndReduce_of_pushed c wm cmd calls h, Run.errKind]

/-- The change detector raises no error. -/
theorem NewChangedEvent_err (wm : InstanceSMTPConfigWriteModel) (aggregate : Aggregate)
    (tls : Bool) (fromAddress fromName smtpHost smtpUser : String) :
    (wm.NewChangedEvent aggregate tls fromAddress fromName smtpHost smtpUser).2.2 = none :=
  rfl

/-- The run of `ChangeSMTPConfig` on a hydrated write model that is not `unspecified`: the outcome is
decided by the flag of the change detector. -/
theorem ChangeSMTPConfig_of_existing (c : Commands) (config : EmailConfig)
    (wm : InstanceSMTPConfigWriteModel) (h : c.getSMTPConfig = Except.ok wm)
    (hs : wm.State ≠ SMTPConfigState.Unspecified) :
    c.ChangeSMTPConfig config =
      if (wm.NewChangedEvent (InstanceAggregateFromWriteModel wm.WriteModel) config.Tls
            config.From config.FromName config.SMTP.Host config.SMTP.User).2.1 = false then
        { details := none
          err := some (ThrowPreconditionFailed "COMMAND-m0o3f" "Errors.NoChangesFound")
          eventstore := c.eventstore, calls := [Call.Filter], model := some wm }
      else
        c.pushAndReduce wm
          (wm.NewChangedEvent (InstanceAggregateFromWriteModel wm.WriteModel) config.Tls
            config.From config.FromName config.SMTP.Host config.SMTP.User).1 [Call.Filter] := by
  have hnone := NewChangedEvent_err wm (InstanceAggregateFromWriteModel wm.WriteModel)
    config.Tls config.From config.FromName config.SMTP.Host config.SMTP.User
  simp only [Commands.ChangeSMTPConfig, h, hs, if_false]
  revert hnone
  generalize wm.NewChangedEvent (InstanceAggregateFromWriteModel wm.WriteModel) config.Tls
    config.From config.FromName config.SMTP.Host config.SMTP.User = t
  rcases t with ⟨ev, changed, er⟩
  intro hnone
  simp only at hnone
  subst hnone
  cases changed <;> simp

/-! ## C1: the existence guard of `AddSMTPConfig` -/

/-- C1 as stated fails: on the log of a configuration that was added and then removed, the
hydrated state is `removed` (so it is not `unspecified`), yet `AddSMTPConfig` returns no error,
returns object details and hands an added event to the event store, which appends it. -/
theorem AddSMTPConfig_removed_is_accepted :
    removedCommands.getSMTPConfig.toOption.map (fun wm => wm.State)
      = some SMTPConfigState.Removed ∧
    (removedCommands.AddSMTPConfig sampleConfig).err = none ∧
    (removedCommands.AddSMTPConfig sampleConfig).details
      = some { ID := "IAM", Sequence := 3, EventDate := 12, CreationDate := 0,
               ResourceOwner := "IAM" } ∧
    pushedCommands (removedCommands.AddSMTPConfig sampleConfig).calls
      = [NewSMTPConfigAddedEvent instanceAggregate true "a@b.c" "A" "smtp.b.c:587" "u" none] ∧
    (removedCommands.AddSMTPConfig sampleConfig).eventstore.events.length = 3 := by
  decide

/-- C1 (amended): for every hydrated write model, if the state is `active` then `AddSMTPConfig`
returns the AlreadyExists error and no details, makes no call besides the hydration (so nothing
is encrypted or pushed) and leaves the event store as it was; if the state is `unspecified` or
`removed` the guard does not stop it: with an empty password the added event without password
is the one event handed to `Push`, and with a non-empty password exactly that password is
encrypted and, when encryption succeeds, the added event carrying the encrypted value is the
one event handed to `Push`. -/
theorem AddSMTPConfig_alreadyExists_guard (c : Commands) (config : EmailConfig)
    (wm : InstanceSMTPConfigWriteModel) (h : c.getSMTPConfig = Except.ok wm) :
    (wm.State = SMTPConfigState.Active →
      (c.AddSMTPConfig config).details = none ∧
      (c.AddSMTPConfig config).err
        = some (ThrowAlreadyExists "COMMAND-en9lw" "Errors.SMTPConfig.AlreadyExists") ∧
      (c.AddSMTPConfig config).calls = [Call.Filter] ∧
      (c.AddSMTPConfig config).eventstore = c.eventstore) ∧
    (wm.State ≠ SMTPConfigState.Active →
      (config.SMTP.Password = "" →
        pushedCommands (c.AddSMTPConfig config).calls =
          [NewSMTPConfigAddedEvent (InstanceAggregateFromWriteModel wm.WriteModel) config.Tls
            config.From config.FromName config.SMTP.Host config.SMTP.User none]) ∧
      (config.SMTP.Password ≠ "" →
        encryptedValues (c.AddSMTPConfig config).calls = [config.SMTP.Password] ∧
        ∀ v, Encrypt config.SMTP.Password c.smtpPasswordCrypto = Except.ok v →
          pushedCommands (c.AddSMTPConfig config).calls =
            [NewSMTPConfigAddedEvent (InstanceAggregateFromWriteModel wm.WriteModel) config.Tls
              config.From config.FromName config.SMTP.Host config.SMTP.User (some v)])) := by
  refine ⟨fun hs => ?_, fun hs => ⟨fun hp => ?_, fun hp => ⟨?_, fun v hv => ?_⟩⟩⟩
  · simp [Commands.AddSMTPConfig, h, hs]
  · simp [Commands.AddSMTPConfig, h, hs, hp, pushAndReduce_pushedCommands, pushedCommands]
  · cases hv : Encrypt config.SMTP.Password c.smtpPasswordCrypto with
    | error e => simp [Commands.AddSMTPConfig, h, hs, hp, hv, encryptedValues]
    | ok v =>
      simp [Commands.AddSMTPConfig, h, hs, hp, hv, pushAndReduce_encryptedValues,
        encryptedValues]
  · simp [Commands.AddSMTPConfig, h, hs, hp, hv, pushAndReduce_pushedCommands, pushedCommands]

/-- Witness of C1 (amended): the active log hydrates to the active model. -/
theorem AddSMTPConfig_alreadyExists_guard_witness :
    activeCommands.getSMTPConfig = Except.ok activeModel ∧
    activeModel.State = SMTPConfigState.Active ∧
    (activeCommands.AddSMTPConfig otherConfig).err
      = some (ThrowAlreadyExists "COMMAND-en9lw" "Errors.SMTPConfig.AlreadyExists") ∧
    (activeCommands.AddSMTPConfig otherConfig).calls = [Call.Filter] :=
  have h : activeCommands.getSMTPConfig = Except.ok activeModel := rfl
  have hs : activeModel.State = SMTPConfigState.Active := by decide
  have t := (AddSMTPConfig_alreadyExists_guard activeCommands otherConfig activeModel h).1 hs
  ⟨h, hs, t.2.1, t.2.2.1⟩

/-! ## C2: the existence guard of the two change commands -/

/-- C2: for every hydrated write model, and collaborators (encryption, event store) that do
not themselves fail with a NotFound error, `ChangeSMTPConfig` and `ChangeSMTPConfigPassword`
each return a NotFound error if and only if the state is `unspecified`; and when one returns
NotFound it is the error COMMAND-3n9ls, no details are returned, nothing was handed to
`crypto.Encrypt`, nothing was handed to `Push` and the event store is as it was. -/
theorem change_commands_notFound_iff_unspecified (c : Commands) (config : EmailConfig)
    (password : String) (wm : InstanceSMTPConfigWriteModel)
    (h : c.getSMTPConfig = Except.ok wm)
    (hEncrypt : ∀ v e, c.smtpPasswordCrypto v = Except.error e → e.Kind ≠ ErrorKind.NotFound)
    (hPush : ∀ log cmds e, c.eventstore.pushErr log cmds = some e →
      e.Kind ≠ ErrorKind.NotFound) :
    (((c.ChangeSMTPConfig config).errKind = some ErrorKind.NotFound
        ↔ wm.State = SMTPConfigState.Unspecified) ∧
      ((c.ChangeSMTPConfig config).errKind = some ErrorKind.NotFound →
        (c.ChangeSMTPConfig config).err
          = some (ThrowNotFound "COMMAND-3n9ls" "Errors.SMTPConfig.NotFound") ∧
        (c.ChangeSMTPConfig config).details = none ∧
        (c.ChangeSMTPConfig config).calls = [Call.Filter] ∧
        encryptedValues (c.ChangeSMTPConfig config).calls = [] ∧
        pushedCommands (c.ChangeSMTPConfig config).calls = [] ∧
        (c.ChangeSMTPConfig config).eventstore = c.eventstore)) ∧
    (((c.ChangeSMTPConfigPassword password).errKind = some ErrorKind.NotFound
        ↔ wm.State = SMTPConfigState.Unspecified) ∧
      ((c.ChangeSMTPConfigPassword password).errKind = some ErrorKind.NotFound →
        (c.ChangeSMTPConfigPassword password).err
          = some (ThrowNotFound "COMMAND-3n9ls" "Errors.SMTPConfig.NotFound") ∧
        (c.ChangeSMTPConfigPassword password).details = none ∧
        (c.ChangeSMTPConfigPassword password).calls = [Call.Filter] ∧
        encryptedValues (c.ChangeSMTPConfigPassword password).calls = [] ∧
        pushedCommands (c.ChangeSMTPConfigPassword password).calls = [] ∧
        (c.ChangeSMTPConfigPassword password).eventstore = c.eventstore)) := by
  have key1 : wm.State ≠ SMTPConfigState.Unspecified →
      (c.ChangeSMTPConfig config).errKind ≠ some ErrorKind.NotFound := by
    intro hs
    rw [ChangeSMTPConfig_of_existing c config wm h hs]
    split
    · simp [Run.errKind, ThrowPreconditionFailed]
    · exact pushAndReduce_errKind_ne_notFound c wm _ _ hPush
  have key2 : wm.State ≠ SMTPConfigState.Unspecified →
      (c.ChangeSMTPConfigPassword password).errKind ≠ some ErrorKind.NotFound := by
    intro hs
    cases hv : Encrypt password c.smtpPasswordCrypto with
    | error e =>
      have := hEncrypt password e hv
      simpa [Commands.ChangeSMTPConfigPassword, h, hs, hv, Run.errKind] using this
    | ok v =>
      simpa [Commands.ChangeSMTPConfigPassword, h, hs, hv] using
        pushAndReduce_errKind_ne_notFound c wm _ _ hPush
  have un1 : wm.State = SMTPConfigState.Unspecified →
      (c.ChangeSMTPConfig config) =
        { details := none
          err := some (ThrowNotFound "COMMAND-3n9ls" "Errors.SMTPConfig.NotFound")
          eventstore := c.eventstore, calls := [Call.Filter], model := some wm } := by
    intro hs
    simp [Commands.ChangeSMTPConfig, h, hs]
  have un2 : wm.State = SMTPConfigState.Unspecified →
      (c.ChangeSMTPConfigPassword password) =
        { details := none
          err := some (ThrowNotFound "COMMAND-3n9ls" "Errors.SMTPConfig.NotFound")
          eventstore := c.eventstore, calls := [Call.Filter], model := some wm } := by
    intro hs
    simp [Commands.ChangeSMTPConfigPassword, h, hs]
  have iff1 : (c.ChangeSMTPConfig config).errKind = some ErrorKind.NotFound
      ↔ wm.State = SMTPConfigState.Unspecified := by
    constructor
    · intro hk
      by_contra hs
      exact key1 hs hk
    · intro hs
      simp [un1 hs, Run.errKind, ThrowNotFound]
  have iff2 : (c.ChangeSMTPConfigPassword password).errKind = some ErrorKind.NotFound
      ↔ wm.State = SMTPConfigState.Unspecified := by
    constructor
    · intro hk
      by_contra hs
      exact key2 hs hk
    · intro hs
      simp [un2 hs, Run.errKind, ThrowNotFound]
  refine ⟨⟨iff1, fun hk => ?_⟩, ⟨iff2, fun hk => ?_⟩⟩
  · simp [un1 (iff1.mp hk), encryptedValues, pushedCommands]
  · simp [un2 (iff2.mp hk), encryptedValues, pushedCommands]

/-- Witness of C2: over the empty log the hydrated model is the fresh, unspecified one, and the
sample collaborators never fail. -/
theorem change_commands_notFound_iff_unspecified_witness :
    emptyCommands.getSMTPConfig = Except.ok NewInstanceSMTPConfigWriteModel ∧
    ((emptyCommands.ChangeSMTPConfig otherConfig).errKind = some ErrorKind.NotFound
      ↔ NewInstanceSMTPConfigWriteModel.State = SMTPConfigState.Unspecified) ∧
    ((emptyCommands.ChangeSMTPConfigPassword "pw").errKind = some ErrorKind.NotFound
      ↔ NewInstanceSMTPConfigWriteModel.State = SMTPConfigState.Unspecified) :=
  have h : emptyCommands.getSMTPConfig = Except.ok NewInstanceSMTPConfigWriteModel := rfl
  have t := change_commands_notFound_iff_unspecified emptyCommands otherConfig "pw"
    NewInstanceSMTPConfigWriteModel h
    (by intro v e hv; simp [emptyCommands, sampleCrypto] at hv)
    (by intro log cmds e hv; simp [emptyCommands, acceptsAll] at hv)
  ⟨h, t.1.1, t.2.1⟩

/-! ## C3: no-op suppression of `ChangeSMTPConfig` -/

/-- C3: for every hydrated write model that is not `unspecified` and every proposal whose tls,
from, from-name, host and user equal the reduced state, the change detector reports no change
and `ChangeSMTPConfig` returns the PreconditionFailed error COMMAND-m0o3f
("Errors.NoChangesFound") and no details; its only call is the hydration, so `Push` is not
called, the event store (hence the log and every aggregate's sequence number) is unchanged, and
running the command again on the event store it left gives the same run. -/
theorem ChangeSMTPConfig_no_changes (c : Commands) (config : EmailConfig)
    (wm : InstanceSMTPConfigWriteModel) (h : c.getSMTPConfig = Except.ok wm)
    (hs : wm.State ≠ SMTPConfigState.Unspecified)
    (hTls : config.Tls = wm.TLS) (hFrom : config.From = wm.SenderAddress)
    (hFromName : config.FromName = wm.SenderName) (hHost : config.SMTP.Host = wm.Host)
    (hUser : config.SMTP.User = wm.User) :
    (wm.NewChangedEvent (InstanceAggregateFromWriteModel wm.WriteModel) config.Tls config.From
      config.FromName config.SMTP.Host config.SMTP.User).2.1 = false ∧
    (c.ChangeSMTPConfig config).err
      = some (ThrowPreconditionFailed "COMMAND-m0o3f" "Errors.NoChangesFound") ∧
    (c.ChangeSMTPConfig config).details = none ∧
    (c.ChangeSMTPConfig config).calls = [Call.Filter] ∧
    (c.ChangeSMTPConfig config).eventstore = c.eventstore ∧
    (∀ a, aggregateSequence (c.ChangeSMTPConfig config).eventstore.events a
      = aggregateSequence c.eventstore.events a) ∧
    Commands.ChangeSMTPConfig { c with eventstore := (c.ChangeSMTPConfig config).eventstore }
      config = c.ChangeSMTPConfig config := by
  have hflag : (wm.NewChangedEvent (InstanceAggregateFromWriteModel wm.WriteModel) config.Tls
      config.From config.FromName config.SMTP.Host config.SMTP.User).2.1 = false := by
    simp [InstanceSMTPConfigWriteModel.NewChangedEvent, hTls, hFrom, hFromName, hHost, hUser]
  have hrun := ChangeSMTPConfig_of_existing c config wm h hs
  rw [if_pos hflag] at hrun
  have hes : (c.ChangeSMTPConfig config).eventstore = c.eventstore := by rw [hrun]
  refine ⟨hflag, by rw [hrun], by rw [hrun], by rw [hrun], hes, fun a => by rw [hes], ?_⟩
  rw [hes]

/-- Witness of C3: proposing to the active configuration the values it already has. -/
theorem ChangeSMTPConfig_no_changes_witness :
    activeCommands.getSMTPConfig = Except.ok activeModel ∧
    (activeCommands.ChangeSMTPConfig sampleConfig).err
      = some (ThrowPreconditionFailed "COMMAND-m0o3f" "Errors.NoChangesFound") ∧
    (activeCommands.ChangeSMTPConfig sampleConfig).calls = [Call.Filter] ∧
    (activeCommands.ChangeSMTPConfig sampleConfig).eventstore = activeCommands.eventstore :=
  have h : activeCommands.getSMTPConfig = Except.ok activeModel := rfl
  have t := ChangeSMTPConfig_no_changes activeCommands sampleConfig activeModel h (by decide)
    rfl rfl rfl rfl rfl
  ⟨h, t.2.1, t.2.2.2.1, t.2.2.2.2.1⟩

/-! ## The commands, path by path -/

theorem AddSMTPConfig_of_active (c : Commands) (config : EmailConfig)
    (wm : InstanceSMTPConfigWriteModel) (h : c.getSMTPConfig = Except.ok wm)
    (hs : wm.State = SMTPConfigState.Active) :
    c.AddSMTPConfig config =
      { details := none
        err := some (ThrowAlreadyExists "COMMAND-en9lw" "Errors.SMTPConfig.AlreadyExists")
        eventstore := c.eventstore, calls := [Call.Filter], model := some wm } := by
  simp [Commands.AddSMTPConfig, h, hs]

theorem AddSMTPConfig_of_empty_password (c : Commands) (config : EmailConfig)
    (wm : InstanceSMTPConfigWriteModel) (h : c.getSMTPConfig = Except.ok wm)
    (hs : wm.State ≠ SMTPConfigState.Active) (hp : config.SMTP.Password = "") :
    c.AddSMTPConfig config =
      c.pushAndReduce wm
        (NewSMTPConfigAddedEvent (InstanceAggregateFromWriteModel wm.WriteModel) config.Tls
          config.From config.FromName config.SMTP.Host config.SMTP.User none) [Call.Filter] := by
  simp [Commands.AddSMTPConfig, h, hs, hp]

theorem AddSMTPConfig_of_encrypt_error (c : Commands) (config : EmailConfig)
    (wm : InstanceSMTPConfigWriteModel) (e : CaosError) (h : c.getSMTPConfig = Except.ok wm)
    (hs : wm.State ≠ SMTPConfigState.Active) (hp : config.SMTP.Password ≠ "")
    (hv : Encrypt config.SMTP.Password c.smtpPasswordCrypto = Except.error e) :
    c.AddSMTPConfig config =
      { details := none, err := some e, eventstore := c.eventstore,
        calls := [Call.Filter, Call.Encrypt config.SMTP.Password], model := some wm } := by
  simp [Commands.AddSMTPConfig, h, hs, hp, hv]

theorem AddSMTPConfig_of_encrypt_ok (c : Commands) (config : EmailConfig)
    (wm : InstanceSMTPConfigWriteModel) (v : CryptoValue) (h : c.getSMTPConfig = Except.ok wm)
    (hs : wm.State ≠ SMTPConfigState.Active) (hp : config.SMTP.Password ≠ "")
    (hv : Encrypt config.SMTP.Password c.smtpPasswordCrypto = Except.ok v) :
    c.AddSMTPConfig config =
      c.pushAndReduce wm
        (NewSMTPConfigAddedEvent (InstanceAggregateFromWriteModel wm.WriteModel) config.Tls
          config.From config.FromName config.SMTP.Host config.SMTP.User (some v))
        [Call.Filter, Call.Encrypt config.SMTP.Password] := by
  simp [Commands.AddSMTPConfig, h, hs, hp, hv]

theorem ChangeSMTPConfigPassword_of_unspecified (c : Commands) (password : String)
    (wm : InstanceSMTPConfigWriteModel) (h : c.getSMTPConfig = Except.ok wm)
    (hs : wm.State = SMTPConfigState.Unspecified) :
    c.ChangeSMTPConfigPassword password =
      { details := none
        err := some (ThrowNotFound "COMMAND-3n9ls" "Errors.SMTPConfig.NotFound")
        eventstore := c.eventstore, calls := [Call.Filter], model := some wm } := by
  simp [Commands.ChangeSMTPConfigPassword, h, hs]

theorem ChangeSMTPConfigPassword_of_encrypt_error (c : Commands) (password : String)
    (wm : InstanceSMTPConfigWriteModel) (e : CaosError) (h : c.getSMTPConfig = Except.ok wm)
    (hs : wm.State ≠ SMTPConfigState.Unspecified)
    (hv : Encrypt password c.smtpPasswordCrypto = Except.error e) :
    c.ChangeSMTPConfigPassword password =
      { details := none, err := some e, eventstore := c.eventstore,
        calls := [Call.Filter, Call.Encrypt password], model := some wm } := by
  simp [Commands.ChangeSMTPConfigPassword, h, hs, hv]

theorem ChangeSMTPConfigPassword_of_encrypt_ok (c : Commands) (password : String)
    (wm : InstanceSMTPConfigWriteModel) (v : CryptoValue) (h : c.getSMTPConfig = Except.ok wm)
    (hs : wm.State ≠ SMTPConfigState.Unspecified)
    (hv : Encrypt password c.smtpPasswordCrypto = Except.ok v) :
    c.ChangeSMTPConfigPassword password =
      c.pushAndReduce wm
        (NewSMTPConfigPasswordChangedEvent (InstanceAggregateFromWriteModel wm.WriteModel) v)
        [Call.Filter, Call.Encrypt password] := by
  simp [Commands.ChangeSMTPConfigPassword, h, hs, hv]

theorem ChangeSMTPConfig_of_unspecified (c : Commands) (config : EmailConfig)
    (wm : InstanceSMTPConfigWriteModel) (h : c.getSMTPConfig = Except.ok wm)
    (hs : wm.State = SMTPConfigState.Unspecified) :
    c.ChangeSMTPConfig config =
      { details := none
        err := some (ThrowNotFound "COMMAND-3n9ls" "Errors.SMTPConfig.NotFound")
        eventstore := c.eventstore, calls := [Call.Filter], model := some wm } := by
  simp [Commands.ChangeSMTPConfig, h, hs]

/-! ## C4: only encrypted passwords reach the event store -/

/-- The shared tail makes no call to `crypto.Encrypt`. -/
theorem pushAndReduce_mem_encrypt (c : Commands) (wm : InstanceSMTPConfigWriteModel)
    (cmd : Command) (calls : List Call) (value : String) :
    Call.Encrypt value ∈ (c.pushAndReduce wm cmd calls).calls ↔ Call.Encrypt value ∈ calls := by
  cases h : c.eventstore.pushErr c.eventstore.events [cmd] with
  | some e => simp [pushAndReduce_of_pushErr c wm cmd calls e h]
  | none => simp [pushAndReduce_of_pushed c wm cmd calls h]

/-- C4: for every run of `AddSMTPConfig` and of `ChangeSMTPConfigPassword`, every event handed
to `Push` carries either no password, which happens only in `AddSMTPConfig` with an empty
password, or exactly the value `crypto.Encrypt` returned for the supplied password (the field
holds a crypto value, never the plaintext string); and when `crypto.Encrypt` was called and
failed, the command returns that error and no details, hands nothing to `Push` and leaves the
event store as it was. -/
theorem pushed_password_is_encrypted (c : Commands) (config : EmailConfig) (password : String) :
    (∀ cmd ∈ pushedCommands (c.AddSMTPConfig config).calls,
      (config.SMTP.Password = "" ∧ cmd.password = none) ∨
      (config.SMTP.Password ≠ "" ∧ ∃ v,
        Encrypt config.SMTP.Password c.smtpPasswordCrypto = Except.ok v ∧
        cmd.password = some v)) ∧
    (∀ value e, Call.Encrypt value ∈ (c.AddSMTPConfig config).calls →
      Encrypt value c.smtpPasswordCrypto = Except.error e →
      (c.AddSMTPConfig config).err = some e ∧ (c.AddSMTPConfig config).details = none ∧
      pushedCommands (c.AddSMTPConfig config).calls = [] ∧
      (c.AddSMTPConfig config).eventstore = c.eventstore) ∧
    (∀ cmd ∈ pushedCommands (c.ChangeSMTPConfigPassword password).calls,
      ∃ v, Encrypt password c.smtpPasswordCrypto = Except.ok v ∧ cmd.password = some v) ∧
    (∀ value e, Call.Encrypt value ∈ (c.ChangeSMTPConfigPassword password).calls →
      Encrypt value c.smtpPasswordCrypto = Except.error e →
      (c.ChangeSMTPConfigPassword password).err = some e ∧
      (c.ChangeSMTPConfigPassword password).details = none ∧
      pushedCommands (c.ChangeSMTPConfigPassword password).calls = [] ∧
      (c.ChangeSMTPConfigPassword password).eventstore = c.eventstore) := by
  cases h : c.getSMTPConfig with
  | error e0 =>
    simp [Commands.AddSMTPConfig, Commands.ChangeSMTPConfigPassword, h, pushedCommands]
  | ok wm =>
    refine ⟨?_, ?_, ?_, ?_⟩
    · by_cases hs : wm.State = SMTPConfigState.Active
      · simp [Commands.AddSMTPConfig, h, hs, pushedCommands]
      · by_cases hp : config.SMTP.Password = ""
        · simp [Commands.AddSMTPConfig, h, hs, hp, pushAndReduce_pushedCommands, pushedCommands,
            NewSMTPConfigAddedEvent, Command.password]
        · cases hv : Encrypt config.SMTP.Password c.smtpPasswordCrypto with
          | error e => simp [Commands.AddSMTPConfig, h, hs, hp, hv, pushedCommands]
          | ok v =>
            simp [Commands.AddSMTPConfig, h, hs, hp, hv, pushAndReduce_pushedCommands,
              pushedCommands, NewSMTPConfigAddedEvent, Command.password]
    · intro value e hmem hfail
      by_cases hs : wm.State = SMTPConfigState.Active
      · simp [AddSMTPConfig_of_active c config wm h hs] at hmem
      · by_cases hp : config.SMTP.Password = ""
        · simp [AddSMTPConfig_of_empty_password c config wm h hs hp,
            pushAndReduce_mem_encrypt] at hmem
        · cases hv : Encrypt config.SMTP.Password c.smtpPasswordCrypto with
          | error e1 =>
            rw [AddSMTPConfig_of_encrypt_error c config wm e1 h hs hp hv] at hmem ⊢
            have hval : value = config.SMTP.Password := by simpa using hmem
            subst hval
            rw [hv] at hfail
            cases hfail
            simp [pushedCommands]
          | ok v =>
            rw [AddSMTPConfig_of_encrypt_ok c config wm v h hs hp hv] at hmem
            have hval : value = config.SMTP.Password := by
              simpa [pushAndReduce_mem_encrypt] using hmem
            subst hval
            rw [hv] at hfail
            cases hfail
    · by_cases hs : wm.State = SMTPConfigState.Unspecified
      · simp [Commands.ChangeSMTPConfigPassword, h, hs, pushedCommands]
      · cases hv : Encrypt password c.smtpPasswordCrypto with
        | error e => simp [Commands.ChangeSMTPConfigPassword, h, hs, hv, pushedCommands]
        | ok v =>
          simp [Commands.ChangeSMTPConfigPassword, h, hs, hv, pushAndReduce_pushedCommands,
            pushedCommands, NewSMTPConfigPasswordChangedEvent, Command.password]
    · intro value e hmem hfail
      by_cases hs : wm.State = SMTPConfigState.Unspecified
      · simp [ChangeSMTPConfigPassword_of_unspecified c password wm h hs] at hmem
      · cases hv : Encrypt password c.smtpPasswordCrypto with
        | error e1 =>
          rw [ChangeSMTPConfigPassword_of_encrypt_error c password wm e1 h hs hv] at hmem ⊢
          have hval : value = password := by simpa using hmem
          subst hval
          rw [hv] at hfail
          cases hfail
          simp [pushedCommands]
        | ok v =>
          rw [ChangeSMTPConfigPassword_of_encrypt_ok c password wm v h hs hv] at hmem
          have hval : value = password := by simpa [pushAndReduce_mem_encrypt] using hmem
          subst hval
          rw [hv] at hfail
          cases hfail

/-- Witness of C4: a password change on the active configuration hands over one event, whose
password is the output of the encryption; with a failing algorithm nothing is handed over. -/
theorem pushed_password_is_encrypted_witness :
    pushedCommands (activeCommands.ChangeSMTPConfigPassword "pw").calls
      = [NewSMTPConfigPasswordChangedEvent instanceAggregate
          { Algorithm := "aes", KeyID := "key-1", Crypted := [112, 119] }] ∧
    (∀ cmd ∈ pushedCommands (activeCommands.ChangeSMTPConfigPassword "pw").calls,
      ∃ v, Encrypt "pw" activeCommands.smtpPasswordCrypto = Except.ok v ∧
        cmd.password = some v) ∧
    ((noKeyCommands.ChangeSMTPConfigPassword "pw").err
        = some { Kind := ErrorKind.EncryptionError, ID := "CRYPT-1", Message := "no key" } ∧
      (noKeyCommands.ChangeSMTPConfigPassword "pw").details = none ∧
      pushedCommands (noKeyCommands.ChangeSMTPConfigPassword "pw").calls = [] ∧
      (noKeyCommands.ChangeSMTPConfigPassword "pw").eventstore = noKeyCommands.eventstore) :=
  ⟨by decide, (pushed_password_is_encrypted activeCommands sampleConfig "pw").2.2.1,
    (pushed_password_is_encrypted noKeyCommands sampleConfig "pw").2.2.2 "pw" _
      (by decide) rfl⟩

/-! ## C5: a failing append is returned -/

/-- The shared tail surfaces a failing append. -/
theorem pushAndReduce_surfaces (c : Commands) (wm : InstanceSMTPConfigWriteModel)
    (cmd : Command) (calls : List Call) (h : c.getSMTPConfig = Except.ok wm)
    (hcalls : ∀ cmds, Call.Push cmds ∉ calls) (hred : reducedBatches calls = []) :
    pushErrorSurfaced c (c.pushAndReduce wm cmd calls) := by
  intro cmds e hmem hfail
  cases hp : c.eventstore.pushErr c.eventstore.events [cmd] with
  | some e1 =>
    rw [pushAndReduce_of_pushErr c wm cmd calls e1 hp] at hmem ⊢
    have hcmds : cmds = [cmd] := by
      simpa [hcalls cmds] using hmem
    subst hcmds
    have he : e1 = e := by simpa [Eventstore.Push, hp] using hfail
    subst he
    simp [reducedBatches_append, hred, reducedBatches, h, Except.toOption]
  | none =>
    rw [pushAndReduce_of_pushed c wm cmd calls hp] at hmem
    have hcmds : cmds = [cmd] := by
      simpa [hcalls cmds] using hmem
    subst hcmds
    simp [Eventstore.Push, hp] at hfail

/-- C5: in every run of `AddSMTPConfig`, `ChangeSMTPConfig` and `ChangeSMTPConfigPassword`,
whenever `Push` was called and the event store answered with an error, the command returns
exactly that error and no object details, `AppendAndReduce` was not called, the write model is
still the hydrated one, and the event store is as it was. -/
theorem push_error_is_returned (c : Commands) (config : EmailConfig) (password : String) :
    pushErrorSurfaced c (c.AddSMTPConfig config) ∧
    pushErrorSurfaced c (c.ChangeSMTPConfig config) ∧
    pushErrorSurfaced c (c.ChangeSMTPConfigPassword password) := by
  cases h : c.getSMTPConfig with
  | error e0 =>
    refine ⟨?_, ?_, ?_⟩ <;> intro cmds e hmem _ <;>
      simp [Commands.AddSMTPConfig, Commands.ChangeSMTPConfig,
        Commands.ChangeSMTPConfigPassword, h] at hmem
  | ok wm =>
    refine ⟨?_, ?_, ?_⟩
    · by_cases hs : wm.State = SMTPConfigState.Active
      · intro cmds e hmem _
        simp [AddSMTPConfig_of_active c config wm h hs] at hmem
      · by_cases hp : config.SMTP.Password = ""
        · rw [AddSMTPConfig_of_empty_password c config wm h hs hp]
          exact pushAndReduce_surfaces c wm _ _ h (by simp) (by simp [reducedBatches])
        · cases hv : Encrypt config.SMTP.Password c.smtpPasswordCrypto with
          | error e1 =>
            intro cmds e hmem _
            simp [AddSMTPConfig_of_encrypt_error c config wm e1 h hs hp hv] at hmem
          | ok v =>
            rw [AddSMTPConfig_of_encrypt_ok c config wm v h hs hp hv]
            exact pushAndReduce_surfaces c wm _ _ h (by simp) (by simp [reducedBatches])
    · by_cases hs : wm.State = SMTPConfigState.Unspecified
      · intro cmds e hmem _
        simp [ChangeSMTPConfig_of_unspecified c config wm h hs] at hmem
      · rw [ChangeSMTPConfig_of_existing c config wm h hs]
        split
        · intro cmds e hmem _
          simp at hmem
        · exact pushAndReduce_surfaces c wm _ _ h (by simp) (by simp [reducedBatches])
    · by_cases hs : wm.State = SMTPConfigState.Unspecified
      · intro cmds e hmem _
        simp [ChangeSMTPConfigPassword_of_unspecified c password wm h hs] at hmem
      · cases hv : Encrypt password c.smtpPasswordCrypto with
        | error e1 =>
          intro cmds e hmem _
          simp [ChangeSMTPConfigPassword_of_encrypt_error c password wm e1 h hs hv] at hmem
        | ok v =>
          rw [ChangeSMTPConfigPassword_of_encrypt_ok c password wm v h hs hv]
          exact pushAndReduce_surfaces c wm _ _ h (by simp) (by simp [reducedBatches])

/-- Witness of C5: an event store that rejects every append with a concurrency conflict. -/
theorem push_error_is_returned_witness :
    (conflictCommands.ChangeSMTPConfig otherConfig).err
      = some { Kind := ErrorKind.ConcurrencyConflict, ID := "V3-1",
               Message := "sequence moved" } ∧
    (conflictCommands.ChangeSMTPConfig otherConfig).details = none ∧
    reducedBatches (conflictCommands.ChangeSMTPConfig otherConfig).calls = [] ∧
    (conflictCommands.ChangeSMTPConfig otherConfig).model
      = conflictCommands.getSMTPConfig.toOption ∧
    (conflictCommands.ChangeSMTPConfig otherConfig).eventstore = conflictCommands.eventstore :=
  (push_error_is_returned conflictCommands otherConfig "pw").2.1
    [{ Aggregate := instanceAggregate
       Payload := Payload.SMTPConfigChanged none none none (some "mail.b.c:25") none }]
    _ (by decide) rfl

/-! ## C6: append, then fold -/

/-- Folding events never changes the aggregate a write model targets. -/
theorem foldl_reduceEvent_aggregateID (events : List Event)
    (wm : InstanceSMTPConfigWriteModel) :
    (events.foldl reduceEvent wm).WriteModel.AggregateID = wm.WriteModel.AggregateID ∧
    (events.foldl reduceEvent wm).WriteModel.ResourceOwner = wm.WriteModel.ResourceOwner := by
  induction events generalizing wm with
  | nil => exact ⟨rfl, rfl⟩
  | cons e es ih =>
    have h1 : (reduceEvent wm e).WriteModel.AggregateID = wm.WriteModel.AggregateID := by
      cases hp : e.Payload <;> simp [reduceEvent, reducePayload, hp]
    have h2 : (reduceEvent wm e).WriteModel.ResourceOwner = wm.WriteModel.ResourceOwner := by
      cases hp : e.Payload <;> simp [reduceEvent, reducePayload, hp]
    simp only [List.foldl_cons]
    exact ⟨(ih (reduceEvent wm e)).1.trans h1, (ih (reduceEvent wm e)).2.trans h2⟩

/-- A successful hydration: the replay did not fail and the write model is the fold of the
selected events into a fresh write model, which targets the instance aggregate. -/
theorem getSMTPConfig_ok (c : Commands) (wm : InstanceSMTPConfigWriteModel)
    (h : c.getSMTPConfig = Except.ok wm) :
    c.eventstore.filterErr = none ∧
    wm = (c.eventstore.events.filter NewInstanceSMTPConfigWriteModel.Query).foldl reduceEvent
      NewInstanceSMTPConfigWriteModel ∧
    wm.WriteModel.AggregateID = IAMID := by
  cases hf : c.eventstore.filterErr with
  | some e => simp [Commands.getSMTPConfig, Eventstore.FilterToQueryReducer, hf] at h
  | none =>
    have hw : wm = (c.eventstore.events.filter NewInstanceSMTPConfigWriteModel.Query).foldl
        reduceEvent NewInstanceSMTPConfigWriteModel := by
      simp only [Commands.getSMTPConfig, Eventstore.FilterToQueryReducer, hf, AppendAndReduce,
        Except.ok.injEq] at h
      exact h.symm
    refine ⟨rfl, hw, ?_⟩
    rw [hw]
    exact (foldl_reduceEvent_aggregateID _ _).1

/-- The shared tail, when it succeeds on an event of the write model's aggregate whose type is
on the allow-list, appends and then folds. -/
theorem pushAndReduce_appendThenFold (c : Commands) (wm : InstanceSMTPConfigWriteModel)
    (cmd : Command) (calls : List Call) (h : c.getSMTPConfig = Except.ok wm)
    (hcalls : pushedCommands calls = []) (hred : reducedBatches calls = [])
    (hagg : cmd.Aggregate = InstanceAggregateFromWriteModel wm.WriteModel)
    (hpayload : ∀ t, cmd.Payload ≠ Payload.Other t)
    (hok : (c.pushAndReduce wm cmd calls).err = none) :
    appendThenFold c (c.pushAndReduce wm cmd calls) := by
  obtain ⟨hf, hw, hid⟩ := getSMTPConfig_ok c wm h
  cases hp : c.eventstore.pushErr c.eventstore.events [cmd] with
  | some e => simp [pushAndReduce_of_pushErr c wm cmd calls e hp] at hok
  | none =>
    rw [pushAndReduce_of_pushed c wm cmd calls hp]
    refine ⟨wm, (stamp c.eventstore.clock c.eventstore.events [cmd]).foldl reduceEvent wm, cmd,
      stamp c.eventstore.clock c.eventstore.events [cmd], h, ?_, rfl, ?_, ?_, rfl, rfl, rfl, ?_⟩
    · simp [Eventstore.Push, hp]
    · simp [pushedCommands_append, hcalls, pushedCommands]
    · simp [reducedBatches_append, hred, reducedBatches]
    · have hq : (stamp c.eventstore.clock c.eventstore.events [cmd]).filter
          NewInstanceSMTPConfigWriteModel.Query
          = stamp c.eventstore.clock c.eventstore.events [cmd] := by
        have hnot : (match cmd.Payload with
            | Payload.Other _ => false
            | _ => true) = true := by
          cases hc : cmd.Payload with
          | Other t => exact absurd hc (hpayload t)
          | _ => rfl
        simp [stamp, InstanceSMTPConfigWriteModel.Query, hagg, InstanceAggregateFromWriteModel,
          hid, NewInstanceSMTPConfigWriteModel, hnot]
      simp only [Commands.getSMTPConfig, Eventstore.FilterToQueryReducer, hf, AppendAndReduce,
        List.filter_append, List.foldl_append, hq, ← hw]

/-- C6: after every successful `AddSMTPConfig`, `ChangeSMTPConfig` or
`ChangeSMTPConfigPassword` (it returned no error), the write model that was hydrated is the one
the batch of events returned by the single push was folded into, the object details returned
are read from it, the log is the log before the command followed by the pushed events, and a
fresh write model hydrated by replaying that log is equal to the in-memory one (reduced state,
processed sequence and change date). -/
theorem successful_command_appends_then_folds (c : Commands) (config : EmailConfig)
    (password : String) :
    ((c.AddSMTPConfig config).err = none → appendThenFold c (c.AddSMTPConfig config)) ∧
    ((c.ChangeSMTPConfig config).err = none → appendThenFold c (c.ChangeSMTPConfig config)) ∧
    ((c.ChangeSMTPConfigPassword password).err = none →
      appendThenFold c (c.ChangeSMTPConfigPassword password)) := by
  cases h : c.getSMTPConfig with
  | error e0 =>
    refine ⟨?_, ?_, ?_⟩ <;> intro hok <;>
      simp [Commands.AddSMTPConfig, Commands.ChangeSMTPConfig,
        Commands.ChangeSMTPConfigPassword, h] at hok
  | ok wm =>
    refine ⟨?_, ?_, ?_⟩
    · intro hok
      by_cases hs : wm.State = SMTPConfigState.Active
      · simp [AddSMTPConfig_of_active c config wm h hs] at hok
      · by_cases hp : config.SMTP.Password = ""
        · rw [AddSMTPConfig_of_empty_password c config wm h hs hp] at hok ⊢
          exact pushAndReduce_appendThenFold c wm _ _ h (by simp [pushedCommands])
            (by simp [reducedBatches]) rfl (by simp [NewSMTPConfigAddedEvent]) hok
        · cases hv : Encrypt config.SMTP.Password c.smtpPasswordCrypto with
          | error e1 => simp [AddSMTPConfig_of_encrypt_error c config wm e1 h hs hp hv] at hok
          | ok v =>
            rw [AddSMTPConfig_of_encrypt_ok c config wm v h hs hp hv] at hok ⊢
            exact pushAndReduce_appendThenFold c wm _ _ h (by simp [pushedCommands])
              (by simp [reducedBatches]) rfl (by simp [NewSMTPConfigAddedEvent]) hok
    · intro hok
      by_cases hs : wm.State = SMTPConfigState.Unspecified
      · simp [ChangeSMTPConfig_of_unspecified c config wm h hs] at hok
      · rw [ChangeSMTPConfig_of_existing c config wm h hs] at hok ⊢
        split at hok
        · simp at hok
        · rename_i hflag
          rw [if_neg hflag]
          exact pushAndReduce_appendThenFold c wm _ _ h (by simp [pushedCommands])
            (by simp [reducedBatches]) rfl
            (by simp [InstanceSMTPConfigWriteModel.NewChangedEvent]) hok
    · intro hok
      by_cases hs : wm.State = SMTPConfigState.Unspecified
      · simp [ChangeSMTPConfigPassword_of_unspecified c password wm h hs] at hok
      · cases hv : Encrypt password c.smtpPasswordCrypto with
        | error e1 =>
          simp [ChangeSMTPConfigPassword_of_encrypt_error c password wm e1 h hs hv] at hok
        | ok v =>
          rw [ChangeSMTPConfigPassword_of_encrypt_ok c password wm v h hs hv] at hok ⊢
          exact pushAndReduce_appendThenFold c wm _ _ h (by simp [pushedCommands])
            (by simp [reducedBatches]) rfl (by simp [NewSMTPConfigPasswordChangedEvent]) hok

/-- Witness of C6: changing the host of the active configuration succeeds. -/
theorem successful_command_appends_then_folds_witness :
    (activeCommands.ChangeSMTPConfig otherConfig).err = none ∧
    (activeCommands.ChangeSMTPConfig otherConfig).details
      = some { ID := "IAM", Sequence := 2, EventDate := 12, CreationDate := 0,
               ResourceOwner := "IAM" } ∧
    appendThenFold activeCommands (activeCommands.ChangeSMTPConfig otherConfig) :=
  ⟨by decide, by decide,
    (successful_command_appends_then_folds activeCommands otherConfig "pw").2.1 (by decide)⟩

/-! ## C7 and C8: the cascade of `UsersHandler.Delete` -/

theorem cascadingMemberships_eq_map (memberships : List Membership) :
    cascadingMemberships memberships = memberships.map cascadingMembership := by
  induction memberships with
  | nil => rfl
  | cons m ms ih => simp [cascadingMemberships, ih]

theorem userGrantsToIDs_eq_map (grants : List UserGrant) :
    userGrantsToIDs grants = grants.map (fun grant => grant.ID) := by
  induction grants with
  | nil => rfl
  | cons g gs ih => simp [userGrantsToIDs, ih]

theorem removeUserCalls_append (xs ys : List HandlerCall) :
    removeUserCalls (xs ++ ys) = removeUserCalls xs ++ removeUserCalls ys := by
  induction xs with
  | nil => rfl
  | cons x xs ih => cases x <;> simp [removeUserCalls, ih]

/-- C7: when the user-grant query returns `grants` and the membership query returns
`memberships`, `Delete` invokes the remove-user command exactly once, for the given user id,
with one cascading-membership descriptor per membership (the i-th carrying the UserID, the
ResourceOwner and the IAM, Org, Project and ProjectGrant ids of the i-th membership, an absent
sub-membership staying absent) and one grant id per grant (the i-th being the id of the i-th
grant), so the invocation requests 1 + M + K removals; with no memberships and no grants both
lists are empty and only the primary removal is requested. -/
theorem Delete_requests_every_dependent (h : UsersHandler) (id : String)
    (grantQuery membershipQuery : SearchQuery) (grants : List UserGrant)
    (memberships : List Membership)
    (hq1 : h.NewUserGrantUserIDSearchQuery id = Except.ok grantQuery)
    (hg : h.UserGrants [grantQuery] true = Except.ok grants)
    (hq2 : h.NewMembershipUserIDQuery id = Except.ok membershipQuery)
    (hm : h.Memberships [membershipQuery] false = Except.ok memberships) :
    removeUserCalls (h.Delete id).2
      = [(id, cascadingMemberships memberships, userGrantsToIDs grants)] ∧
    (cascadingMemberships memberships).length = memberships.length ∧
    (userGrantsToIDs grants).length = grants.length ∧
    (∀ i : Nat, (cascadingMemberships memberships)[i]? = memberships[i]?.map (fun (m : Membership) =>
      ({ UserID := m.UserID, ResourceOwner := m.ResourceOwner
         IAM := m.IAM.map (fun x => { IAMID := x.IAMID })
         Org := m.Org.map (fun x => { OrgID := x.OrgID })
         Project := m.Project.map (fun x => { ProjectID := x.ProjectID })
         ProjectGrant := m.ProjectGrant.map
           (fun x => { ProjectID := x.ProjectID, GrantID := x.GrantID }) } :
        CascadingMembership))) ∧
    (∀ i : Nat, (userGrantsToIDs grants)[i]? = grants[i]?.map (fun grant => grant.ID)) ∧
    (∀ call ∈ removeUserCalls (h.Delete id).2,
      removalsRequested call = 1 + memberships.length + grants.length) ∧
    (memberships = [] → grants = [] → removeUserCalls (h.Delete id).2 = [(id, [], [])]) := by
  have hdep : h.queryUserDependencies id =
      (Except.ok (cascadingMemberships memberships, userGrantsToIDs grants),
        [HandlerCall.UserGrants [grantQuery], HandlerCall.Memberships [membershipQuery]]) := by
    simp [UsersHandler.queryUserDependencies, hq1, hg, hq2, hm]
  have hcalls : removeUserCalls (h.Delete id).2
      = [(id, cascadingMemberships memberships, userGrantsToIDs grants)] := by
    simp only [UsersHandler.Delete, hdep]
    cases h.RemoveUserV2 id (cascadingMemberships memberships) (userGrantsToIDs grants) <;>
      simp [removeUserCalls]
  have hlen1 : (cascadingMemberships memberships).length = memberships.length := by
    simp [cascadingMemberships_eq_map]
  have hlen2 : (userGrantsToIDs grants).length = grants.length := by
    simp [userGrantsToIDs_eq_map]
  refine ⟨hcalls, hlen1, hlen2, fun i => ?_, fun i => ?_, fun call hcall => ?_, fun h1 h2 => ?_⟩
  · rw [cascadingMemberships_eq_map, List.getElem?_map]
    cases hmi : memberships[i]? with
    | none => rfl
    | some m =>
      simp only [Option.map_some', Option.some.injEq]
      rcases m with ⟨u, r, iam, org, project, projectGrant⟩
      cases iam <;> cases org <;> cases project <;> cases projectGrant <;> rfl
  · rw [userGrantsToIDs_eq_map, List.getElem?_map]
  · rw [hcalls] at hcall
    simp only [List.mem_singleton] at hcall
    subst hcall
    simp [removalsRequested, hlen1, hlen2]
  · rw [hcalls, h1, h2]
    rfl

/-- Witness of C7: a user with two memberships and three grants. -/
theorem Delete_requests_every_dependent_witness :
    removeUserCalls (sampleHandler.Delete "u1").2
      = [("u1",
          [ { UserID := "u1", ResourceOwner := "org1", IAM := none,
              Org := some { OrgID := "org1" }, Project := none, ProjectGrant := none },
            { UserID := "u1", ResourceOwner := "org2", IAM := none, Org := none,
              Project := none, ProjectGrant := some { ProjectID := "p1", GrantID := "g1" } } ],
          ["ug1", "ug2", "ug3"])] ∧
    (∀ call ∈ removeUserCalls (sampleHandler.Delete "u1").2, removalsRequested call = 1 + 2 + 3) ∧
    removeUserCalls (lonelyHandler.Delete "u1").2 = [("u1", [], [])] :=
  have t := Delete_requests_every_dependent sampleHandler "u1"
    { Column := "grant.user_id", Value := "u1" } { Column := "member.user_id", Value := "u1" }
    sampleGrants sampleMemberships rfl rfl rfl rfl
  have t0 := Delete_requests_every_dependent lonelyHandler "u1"
    { Column := "grant.user_id", Value := "u1" } { Column := "member.user_id", Value := "u1" }
    [] [] rfl rfl rfl rfl
  ⟨t.1, t.2.2.2.2.2.1, t0.2.2.2.2.2.2 rfl rfl⟩

/-- C8: if building the user-grant query, running it, building the membership query or running
it fails, `Delete` returns that error and the remove-user command is not invoked. -/
theorem Delete_aborts_when_a_query_fails (h : UsersHandler) (id : String) (err : CaosError)
    (hfail : h.NewUserGrantUserIDSearchQuery id = Except.error err ∨
      (∃ q, h.NewUserGrantUserIDSearchQuery id = Except.ok q ∧
        (h.UserGrants [q] true = Except.error err ∨
          ∃ grants, h.UserGrants [q] true = Except.ok grants ∧
            (h.NewMembershipUserIDQuery id = Except.error err ∨
              ∃ q2, h.NewMembershipUserIDQuery id = Except.ok q2 ∧
                h.Memberships [q2] false = Except.error err)))) :
    (h.Delete id).1 = some err ∧ removeUserCalls (h.Delete id).2 = [] ∧
    ∀ userID memberships grants,
      HandlerCall.RemoveUserV2 userID memberships grants ∉ (h.Delete id).2 := by
  rcases hfail with h1 | ⟨q, h1, h2 | ⟨grants, h2, h3 | ⟨q2, h3, h4⟩⟩⟩
  · simp [UsersHandler.Delete, UsersHandler.queryUserDependencies, h1, removeUserCalls]
  · simp [UsersHandler.Delete, UsersHandler.queryUserDependencies, h1, h2, removeUserCalls]
  · simp [UsersHandler.Delete, UsersHandler.queryUserDependencies, h1, h2, h3, removeUserCalls]
  · simp [UsersHandler.Delete, UsersHandler.queryUserDependencies, h1, h2, h3, h4,
      removeUserCalls]

/-- Witness of C8: the membership query is unavailable. -/
theorem Delete_aborts_when_a_query_fails_witness :
    (brokenHandler.Delete "u1").1 = some queryUnavailable ∧
    removeUserCalls (brokenHandler.Delete "u1").2 = [] :=
  have t := Delete_aborts_when_a_query_fails brokenHandler "u1" queryUnavailable
    (Or.inr ⟨{ Column := "grant.user_id", Value := "u1" }, rfl,
      Or.inr ⟨sampleGrants, rfl,
        Or.inr ⟨{ Column := "member.user_id", Value := "u1" }, rfl, rfl⟩⟩⟩)
  ⟨t.1, t.2.1⟩

/-! ## C9 and C10: the integration client on error and success responses -/

/-- When the body decodes and closes, `readScimError` returns a nil error: the decoded
document is dropped. -/
theorem readScimError_of_document (decode : String → Except String ScimError)
    (resp : Response) (doc : ScimError) (hdoc : decode resp.Body = Except.ok doc)
    (hclose : resp.closeErr = none) :
    readScimError decode resp = Outcome.returned none := by
  simp [readScimError, readJson, hdoc, hclose]

/-- Whatever the response, `readScimError` never returns a non-nil error. -/
theorem readScimError_never_returns_error (decode : String → Except String ScimError)
    (resp : Response) (err : GoError) :
    readScimError decode resp ≠ Outcome.returned (some err) := by
  unfold readScimError readJson
  cases decode resp.Body <;> cases resp.closeErr <;> simp

/-- For every response whose body is a SCIM error document that decodes and closes, whatever
its status code, `Delete` returns a nil error. -/
theorem Delete_of_document (c : ResourceClient) (ctx : Context) (id : String)
    (req req1 : Request) (resp : Response) (doc : ScimError)
    (hreq : c.NewRequestWithContext ctx MethodDelete (c.baseUrl ++ ("/" ++ id)) none
      = Except.ok req)
    (htoken : addTokenAsHeader req = Outcome.returned req1)
    (hdo : c.client req1 = Except.ok resp)
    (hdoc : c.decodeScimError resp.Body = Except.ok doc)
    (hclose : resp.closeErr = none) :
    c.Delete ctx id = Outcome.returned none := by
  by_cases hs : resp.StatusCode % 100 = 2
  · simp [ResourceClient.Delete, ResourceClient.do, ResourceClient.doReq, hreq, htoken, hdo, hs]
  · simp [ResourceClient.Delete, ResourceClient.do, ResourceClient.doReq, hreq, htoken, hdo, hs,
      readScimError_of_document c.decodeScimError resp doc hdoc hclose]

/-- A non-nil error returned by `Delete` never comes from a response: it is the error of
building the request or the error of sending it. -/
theorem Delete_error_is_transport_error (c : ResourceClient) (ctx : Context) (id : String)
    (err : GoError) (h : c.Delete ctx id = Outcome.returned (some err)) :
    c.NewRequestWithContext ctx MethodDelete (c.baseUrl ++ ("/" ++ id)) none = Except.error err ∨
    ∃ req req1, c.NewRequestWithContext ctx MethodDelete (c.baseUrl ++ ("/" ++ id)) none
        = Except.ok req ∧
      addTokenAsHeader req = Outcome.returned req1 ∧ c.client req1 = Except.error err := by
  cases hreq : c.NewRequestWithContext ctx MethodDelete (c.baseUrl ++ ("/" ++ id)) none with
  | error e =>
    left
    simpa [ResourceClient.Delete, ResourceClient.do, hreq] using h
  | ok req =>
    right
    refine ⟨req, ?_⟩
    cases htoken : addTokenAsHeader req with
    | panicked m =>
      simp [ResourceClient.Delete, ResourceClient.do, ResourceClient.doReq, hreq, htoken] at h
    | returned req1 =>
      refine ⟨req1, rfl, rfl, ?_⟩
      cases hdo : c.client req1 with
      | error e =>
        simpa [ResourceClient.Delete, ResourceClient.do, ResourceClient.doReq, hreq, htoken,
          hdo] using h
      | ok resp =>
        exfalso
        by_cases hs : resp.StatusCode % 100 = 2
        · simp [ResourceClient.Delete, ResourceClient.do, ResourceClient.doReq, hreq, htoken,
            hdo, hs] at h
        · have hne := readScimError_never_returns_error c.decodeScimError resp err
          simp only [ResourceClient.Delete, ResourceClient.do, ResourceClient.doReq, hreq,
            htoken, hdo, hs, ne_eq, not_false_eq_true, if_true] at h
          cases hr : readScimError c.decodeScimError resp with
          | panicked m => simp [hr] at h
          | returned e1 =>
            simp only [hr, Outcome.returned.injEq] at h
            exact hne (by rw [hr, h])

/-- For every response with a status code in 200..299 other than 202, `doReq` takes the
SCIM-error branch: its outcome is that of `readScimError`. -/
theorem doReq_of_2xx (c : ResourceClient) (req req1 : Request) (resp : Response)
    (htoken : addTokenAsHeader req = Outcome.returned req1)
    (hdo : c.client req1 = Except.ok resp)
    (hlo : 200 ≤ resp.StatusCode) (hhi : resp.StatusCode ≤ 299) (hne : resp.StatusCode ≠ 202) :
    c.doReq req (none : Option (String → Except String Unit)) =
      match readScimError c.decodeScimError resp with
      | Outcome.panicked message => Outcome.panicked message
      | Outcome.returned err => Outcome.returned (none, err) := by
  have hs : resp.StatusCode % 100 ≠ 2 := by omega
  simp [ResourceClient.doReq, htoken, hdo, hs]

/-- C9, the code at the failing input: the server answers the deletion of an already deleted
user with status 404 and a SCIM error document whose status is "404"; the document decodes, yet
`Delete` returns a nil error instead of the `ScimError`. -/
theorem Delete_notFound_returns_nil :
    notFoundResponse.StatusCode = 404 ∧
    sampleDecode notFoundResponse.Body = Except.ok notFoundError ∧
    notFoundError.Status = "404" ∧
    (clientAnswering notFoundResponse).Delete sampleContext "user-1" = Outcome.returned none := by
  refine ⟨rfl, ?_, rfl, ?_⟩
  · simp [sampleDecode, notFoundResponse]
  · exact Delete_of_document (clientAnswering notFoundResponse) sampleContext "user-1" _ _
      notFoundResponse notFoundError rfl rfl rfl (by simp [sampleDecode, clientAnswering, notFoundResponse]) rfl

/-- C10, the code at the failing input: the server answers a successful deletion with status
204 and no body; 204 % 100 is 4, so `doReq` takes the SCIM-error branch, decoding the empty
body fails, and `Delete` panics instead of returning a nil error. -/
theorem Delete_noContent_panics :
    noContentResponse.StatusCode = 204 ∧
    noContentResponse.StatusCode % 100 = 4 ∧
    readScimError sampleDecode noContentResponse = Outcome.panicked "Failed decoding entity" ∧
    (clientAnswering noContentResponse).Delete sampleContext "user-1"
      = Outcome.panicked "Failed decoding entity" := by
  decide

/-! ## C12: the resource metadata built from the command result -/

/-- A decimal digit character denotes its digit. -/
theorem digitChar_value (d : Nat) (h : d < 10) : (Nat.digitChar d).toNat - 48 = d := by
  interval_cases d <;> rfl

/-- Reading back the decimal string of a number gives the number. -/
theorem decimalValue_FormatUint (n : Nat) : decimalValue (FormatUint n 10) = n := by
  unfold FormatUint decimalValue
  split
  · next h => subst h; rfl
  · have hmap : List.map (fun c : Char => c.toNat - 48)
        (List.map Nat.digitChar (Nat.digits 10 n)) = Nat.digits 10 n := by
      rw [List.map_map]
      conv_rhs => rw [← List.map_id (Nat.digits 10 n)]
      apply List.map_congr_left
      intro d hd
      exact digitChar_value d (Nat.digits_lt_base (by norm_num) hd)
    simp only [List.reverse_reverse, List.map_reverse, hmap]
    exact Nat.ofDigits_digits 10 n

/-- Distinct numbers have distinct decimal strings. -/
theorem FormatUint_injective (m n : Nat) (h : FormatUint m 10 = FormatUint n 10) : m = n := by
  have := congrArg decimalValue h
  simpa [decimalValue_FormatUint] using this

/-- C12: for every command result passed to `buildResource`, `Meta.Version` is the base-10
string of the sequence number (reading it back as a decimal gives the sequence, so results
with distinct sequences get distinct versions), `Meta.LastModified` is the change timestamp
presented in UTC, and `Meta.Created` is the creation timestamp presented in UTC when it is not
the zero time and the change timestamp presented in UTC when it is. -/
theorem buildResource_meta (ctx : RequestContext) (handler : ResourceHandler)
    (details : ObjectDetails) :
    (buildResource ctx handler details).Meta.Version = FormatUint details.Sequence 10 ∧
    decimalValue (buildResource ctx handler details).Meta.Version = details.Sequence ∧
    (∀ other : ObjectDetails,
      (buildResource ctx handler other).Meta.Version
        = (buildResource ctx handler details).Meta.Version →
      other.Sequence = details.Sequence) ∧
    (buildResource ctx handler details).Meta.LastModified
      = { instant := details.EventDate, location := "UTC" } ∧
    (details.CreationDate ≠ 0 →
      (buildResource ctx handler details).Meta.Created
        = { instant := details.CreationDate, location := "UTC" }) ∧
    (details.CreationDate = 0 →
      (buildResource ctx handler details).Meta.Created
        = { instant := details.EventDate, location := "UTC" }) := by
  refine ⟨rfl, decimalValue_FormatUint _, fun other h => FormatUint_injective _ _ h, rfl, ?_, ?_⟩
  · intro h
    simp [buildResource, UTC, Time.IsZero, h]
  · intro h
    simp [buildResource, UTC, Time.IsZero, h]

/-- Witness of C12: a first write with sequence 42 at instant 20. -/
theorem buildResource_meta_witness :
    (buildResource sampleRequestContext usersResourceHandler sampleDetails).Meta.Version = "42" ∧
    (buildResource sampleRequestContext usersResourceHandler sampleDetails).Meta.Created
      = { instant := 20, location := "UTC" } ∧
    (buildResource sampleRequestContext usersResourceHandler sampleDetails).Meta.LastModified
      = { instant := 20, location := "UTC" } :=
  have t := buildResource_meta sampleRequestContext usersResourceHandler sampleDetails
  ⟨t.1.trans (by simp [sampleDetails, FormatUint]; rfl), t.2.2.2.2.2 rfl, t.2.2.2.1⟩

/-! ## The loop of `mapMetadataToCommands` -/

/-- When the loop returns, it has appended the entries of the keys, in the order of the keys. -/
theorem mapMetadataToCommandsLoop_returned (p : Packages) (ctx : RequestContext)
    (user : ScimUser) (keys : List Key) (md out : List AddMetadataEntry)
    (h : mapMetadataToCommandsLoop p ctx user keys md = Outcome.returned out) :
    out = md ++ keys.filterMap (entryFor p ctx user) := by
  induction keys generalizing md with
  | nil =>
    simp only [mapMetadataToCommandsLoop, Outcome.returned.injEq] at h
    simp [h]
  | cons key rest ih =>
    unfold mapMetadataToCommandsLoop at h
    cases hv : getValueForMetadataKey p user key with
    | panicked message => simp [hv] at h
    | returned value =>
      cases value with
      | error e =>
        simp only [hv] at h
        rw [ih md h]
        simp [List.filterMap_cons, entryFor, hv]
      | ok value =>
        simp only [hv] at h
        by_cases hlen : value.length > 0
        · simp only [hlen, if_true] at h
          rw [ih _ h]
          simp [List.filterMap_cons, entryFor, hv, hlen]
        · simp only [hlen, if_false] at h
          rw [ih md h]
          simp [List.filterMap_cons, entryFor, hv, hlen]

/-- The loop returns when the value of every key is computed without a panic. -/
theorem mapMetadataToCommandsLoop_returns (p : Packages) (ctx : RequestContext)
    (user : ScimUser) (keys : List Key) (md : List AddMetadataEntry)
    (h : ∀ key ∈ keys, ∃ r, getValueForMetadataKey p user key = Outcome.returned r) :
    ∃ out, mapMetadataToCommandsLoop p ctx user keys md = Outcome.returned out := by
  induction keys generalizing md with
  | nil => exact ⟨md, rfl⟩
  | cons key rest ih =>
    obtain ⟨r, hr⟩ := h key (List.mem_cons_self _ _)
    have hrest : ∀ key ∈ rest, ∃ r, getValueForMetadataKey p user key = Outcome.returned r :=
      fun k hk => h k (List.mem_cons_of_mem _ hk)
    unfold mapMetadataToCommandsLoop
    cases r with
    | error e => simpa [hr] using ih md hrest
    | ok value =>
      by_cases hlen : value.length > 0
      · simpa [hr, hlen] using ih _ hrest
      · simpa [hr, hlen] using ih md hrest

/-- What `mapMetadataToCommands` returns, when it returns. -/
theorem mapMetadataToCommands_returned (p : Packages) (ctx : RequestContext) (user : ScimUser)
    (out : List AddMetadataEntry)
    (h : UsersHandler.mapMetadataToCommands p ctx user = Outcome.returned out) :
    out = p.ScimUserRelevantMetadataKeys.filterMap (entryFor p ctx user) := by
  simpa using mapMetadataToCommandsLoop_returned p ctx user _ [] out h

/-! ## C13: the display name of the add-human command -/

/-- C13: for every SCIM user for which the metadata mapping returns, `mapToAddHuman` returns
a command whose DisplayName is the user's displayName when that is not empty, whatever
name.formatted is; is name.formatted when displayName is empty and a name is present; and is
empty when displayName is empty and no name is present. -/
theorem mapToAddHuman_displayName (p : Packages) (config : Config) (ctx : RequestContext)
    (scimUser : ScimUser) (metadata : List AddMetadataEntry)
    (hmd : UsersHandler.mapMetadataToCommands p ctx scimUser = Outcome.returned metadata) :
    ∃ human user, UsersHandler.mapToAddHuman p config ctx scimUser
        = Outcome.returned (human, user) ∧
      (scimUser.DisplayName ≠ "" → human.DisplayName = scimUser.DisplayName) ∧
      (scimUser.DisplayName = "" → ∀ name, scimUser.Name = some name →
        human.DisplayName = name.Formatted) ∧
      (scimUser.DisplayName = "" → scimUser.Name = none → human.DisplayName = "") := by
  unfold UsersHandler.mapToAddHuman
  rw [hmd]
  cases hpw : scimUser.Password <;> cases hname : scimUser.Name <;>
    cases hlang : p.LanguageIsDefined scimUser.PreferredLanguage <;>
    by_cases hd : scimUser.DisplayName = "" <;>
    simp [hpw, hname, hlang, hd]

/-- Witness of C13: a user with a display name and a formatted name, and the user of the test,
which has neither. -/
theorem mapToAddHuman_displayName_witness :
    (∃ human user, UsersHandler.mapToAddHuman samplePackages sampleScimConfig
        sampleRequestContext germanUser = Outcome.returned (human, user) ∧
      human.DisplayName = "Hans M.") ∧
    (∃ human user, UsersHandler.mapToAddHuman samplePackages sampleScimConfig
        sampleRequestContext testUser = Outcome.returned (human, user) ∧
      human.DisplayName = "") :=
  have t := mapToAddHuman_displayName samplePackages sampleScimConfig sampleRequestContext
    germanUser _ rfl
  have t0 := mapToAddHuman_displayName samplePackages sampleScimConfig sampleRequestContext
    testUser _ rfl
  ⟨t.imp fun _ h => h.imp fun _ h => ⟨h.1, h.2.1 (by decide)⟩,
   t0.imp fun _ h => h.imp fun _ h => ⟨h.1, h.2.2.2 rfl rfl⟩⟩

/-! ## `getValueForMetadataKey` on the handled keys

What C15 states holds for twelve of the thirteen keys.  For the profile URL key the outcome is
that of the method `String` of `*schemas.HttpURL`, called on a nil pointer when the user has no
profile URL; the method is not among the sources, and both outcomes occur below. -/

/-- For every SCIM user and every key the switch handles, `getRawValueForMetadataKey` returns
a value: the "unknown metadata key" branch is not taken and, a user without a name being
checked for, no nil pointer is dereferenced. -/
theorem getRawValueForMetadataKey_handled (user : ScimUser) (key : Key)
    (hkey : key ∈ handledKeys) :
    ∃ raw, getRawValueForMetadataKey user key = Outcome.returned raw := by
  simp only [handledKeys, List.mem_cons, List.mem_singleton, List.not_mem_nil, or_false] at hkey
  rcases hkey with h | h | h | h | h | h | h | h | h | h | h | h | h <;> subst h <;>
    cases hname : user.Name <;> simp [getRawValueForMetadataKey, hname]

/-- For the profile URL key the value is what the method `String` of the URL gives, on a nil
pointer too: the type assertion succeeds, and a panic can only come from inside `String`. -/
theorem getValueForMetadataKey_profileUrl (p : Packages) (user : ScimUser) :
    getValueForMetadataKey p user Key.ProfileUrl =
      match p.HttpURLString user.ProfileUrl with
      | Outcome.panicked message => Outcome.panicked message
      | Outcome.returned text => Outcome.returned (Except.ok text) := by
  simp [getValueForMetadataKey, getRawValueForMetadataKey]

/-- For every SCIM user, with or without a name, and every handled key other than the profile
URL key, `getValueForMetadataKey` returns: no type assertion fails. -/
theorem getValueForMetadataKey_returns_off_profileUrl (p : Packages) (user : ScimUser)
    (key : Key) (hkey : key ∈ handledKeys) (hne : key ≠ Key.ProfileUrl) :
    ∃ r, getValueForMetadataKey p user key = Outcome.returned r := by
  simp only [handledKeys, List.mem_cons, List.mem_singleton, List.not_mem_nil, or_false] at hkey
  rcases hkey with h | h | h | h | h | h | h | h | h | h | h | h | h <;> subst h
  case inr.inr.inr.inr.inr.inr.inr.inr.inr.inl => exact absurd rfl hne
  all_goals
    cases hname : user.Name <;>
      simp [getValueForMetadataKey, getRawValueForMetadataKey, hname] <;>
      split <;> simp

/-- On the user of the test, which has no profile URL, the value of the profile URL key is the
empty byte slice when `String` answers a nil pointer with the empty string, and the call
panics when `String` dereferences its receiver. -/
theorem getValueForMetadataKey_profileUrl_testUser :
    testUser.ProfileUrl = none ∧
    getValueForMetadataKey samplePackages testUser Key.ProfileUrl
      = Outcome.returned (Except.ok "") ∧
    getValueForMetadataKey nilUnsafePackages testUser Key.ProfileUrl
      = Outcome.panicked "invalid memory address or nil pointer dereference" :=
  ⟨rfl, rfl, rfl⟩

/-! ## C16: the entries `mapMetadataToCommands` emits -/

/-- For a user without ims, the value computed for the ims key is the four bytes `null`: the
nil slice boxed in the interface is not the nil interface, and `json.Marshal` encodes it. -/
theorem getValueForMetadataKey_nil_ims (p : Packages) (user : ScimUser)
    (h : user.Ims = none) :
    getValueForMetadataKey p user Key.Ims = Outcome.returned (Except.ok "null") := by
  simp [getValueForMetadataKey, getRawValueForMetadataKey, Packages.Marshal, marshalSlice, h]

/-- Whenever the table of keys holds the ims key and the mapping returns, a user without ims
gets an entry for the ims key, with the value `null`. -/
theorem mapMetadataToCommands_nil_ims (p : Packages) (ctx : RequestContext) (user : ScimUser)
    (out : List AddMetadataEntry) (h : user.Ims = none)
    (htable : Key.Ims ∈ p.ScimUserRelevantMetadataKeys)
    (hrun : UsersHandler.mapMetadataToCommands p ctx user = Outcome.returned out) :
    { Key := p.ScopeKey ctx Key.Ims, Value := "null" } ∈ out := by
  rw [mapMetadataToCommands_returned p ctx user out hrun, List.mem_filterMap]
  refine ⟨Key.Ims, htable, ?_⟩
  simp [entryFor, getValueForMetadataKey_nil_ims p user h]
  decide

/-- C16, the code at the failing input: for the user of the test, which carries only an
external id, a user name and a password, `mapMetadataToCommands` emits six entries and not one:
besides the external id, one entry with the value `null` for each of ims, photos, addresses,
entitlements and roles, none of which the user carries. -/
theorem mapMetadataToCommands_testUser :
    testUser.Ims = none ∧ testUser.Photos = none ∧ testUser.Addresses = none ∧
    testUser.Entitlements = none ∧ testUser.Roles = none ∧
    UsersHandler.mapMetadataToCommands samplePackages sampleRequestContext testUser =
      Outcome.returned
        [{ Key := "urn:zitadel:scim:ims", Value := "null" },
         { Key := "urn:zitadel:scim:photos", Value := "null" },
         { Key := "urn:zitadel:scim:addresses", Value := "null" },
         { Key := "urn:zitadel:scim:entitlements", Value := "null" },
         { Key := "urn:zitadel:scim:roles", Value := "null" },
         { Key := "urn:zitadel:scim:externalId", Value := "external-id-1" }] := by
  decide

/-! ## C17: the preferred language of the add-human command -/

/-- When the supplied language is defined, the command keeps the zero language tag while the
SCIM user keeps the supplied language; when it is not, both get English. -/
theorem mapToAddHuman_preferredLanguage (p : Packages) (config : Config)
    (ctx : RequestContext) (scimUser : ScimUser) (metadata : List AddMetadataEntry)
    (hmd : UsersHandler.mapMetadataToCommands p ctx scimUser = Outcome.returned metadata) :
    ∃ human user, UsersHandler.mapToAddHuman p config ctx scimUser
        = Outcome.returned (human, user) ∧
      (p.LanguageIsDefined scimUser.PreferredLanguage = none →
        human.PreferredLanguage = LanguageTag.Und ∧
        user.PreferredLanguage = scimUser.PreferredLanguage) ∧
      (p.LanguageIsDefined scimUser.PreferredLanguage ≠ none →
        human.PreferredLanguage = LanguageTag.English ∧
        user.PreferredLanguage = LanguageTag.English) := by
  unfold UsersHandler.mapToAddHuman
  rw [hmd]
  cases hpw : scimUser.Password <;> cases hname : scimUser.Name <;>
    cases hlang : p.LanguageIsDefined scimUser.PreferredLanguage <;>
    by_cases hd : scimUser.DisplayName = "" <;>
    simp only [hpw, hname, hlang, hd, if_true, if_false] <;>
    exact ⟨_, _, rfl, by simp, by simp⟩

/-- C17, the code at the failing input: for a user whose preferred language is German, which is
defined, `mapToAddHuman` returns a command whose preferred language is the zero tag (the
undetermined language), while the SCIM user returned to the client keeps German. -/
theorem mapToAddHuman_german :
    samplePackages.LanguageIsDefined germanUser.PreferredLanguage = none ∧
    ∃ human user, UsersHandler.mapToAddHuman samplePackages sampleScimConfig
        sampleRequestContext germanUser = Outcome.returned (human, user) ∧
      human.PreferredLanguage = { name := "und" } ∧
      user.PreferredLanguage = { name := "de" } ∧
      human.PreferredLanguage ≠ user.PreferredLanguage :=
  ⟨by decide, _, _, rfl, rfl, rfl, by decide⟩

/-! ## C19: round trip of the scalar metadata -/

/-- A string of length zero is the empty string. -/
theorem eq_empty_of_length_eq_zero (s : String) (h : s.length = 0) : s = "" := by
  cases s with
  | mk data =>
    cases data with
    | nil => rfl
    | cons c cs => simp [String.length] at h

/-- For a scalar key the value computed is the string the user carries for it. -/
theorem getValueForMetadataKey_scalar (p : Packages) (user : ScimUser) (key : Key)
    (hkey : key ∈ scalarKeys) :
    getValueForMetadataKey p user key = Outcome.returned (Except.ok (user.scalar key)) := by
  simp only [scalarKeys, List.mem_cons, List.mem_singleton, List.not_mem_nil, or_false] at hkey
  rcases hkey with h | h | h | h | h | h | h <;> subst h <;>
    cases hname : user.Name <;>
    simp [getValueForMetadataKey, getRawValueForMetadataKey, ScimUser.scalar, hname] <;>
    intro h <;> exact h.symm

/-- A scalar key whose value is empty yields no entry. -/
theorem entryFor_empty_scalar (p : Packages) (ctx : RequestContext) (user : ScimUser)
    (key : Key) (hkey : key ∈ scalarKeys) (hempty : user.scalar key = "") :
    entryFor p ctx user key = none := by
  simp [entryFor, getValueForMetadataKey_scalar p user key hkey, hempty]

/-- Looking a key up in a map to which entries were assigned in order, when every entry for
that key carries the same value: the value if there is such an entry, and what the map held
before otherwise. -/
theorem foldl_set_lookup (entries : List AddMetadataEntry) (m : MetadataMap) (key : ScopedKey)
    (value : Bytes) (hall : ∀ e ∈ entries, e.Key = key → e.Value = value) :
    ((∃ e ∈ entries, e.Key = key) →
      entries.foldl (fun md entry => md.set entry.Key entry.Value) m key = some value) ∧
    ((∀ e ∈ entries, e.Key ≠ key) →
      entries.foldl (fun md entry => md.set entry.Key entry.Value) m key = m key) := by
  induction entries generalizing m with
  | nil => simp
  | cons e es ih =>
    have hes : ∀ e ∈ es, e.Key = key → e.Value = value :=
      fun x hx => hall x (List.mem_cons_of_mem _ hx)
    have ih1 := ih (m.set e.Key e.Value) hes
    simp only [List.foldl_cons]
    constructor
    · intro _
      by_cases hlater : ∃ x ∈ es, x.Key = key
      · exact ih1.1 hlater
      · have hnone : ∀ x ∈ es, x.Key ≠ key := fun x hx hk => hlater ⟨x, hx, hk⟩
        rw [ih1.2 hnone]
        rename_i hex
        obtain ⟨x, hx, hk⟩ := hex
        have hxe : x = e := by
          rcases List.mem_cons.mp hx with h | h
          · exact h
          · exact absurd hk (hnone x h)
        subst hxe
        simp [MetadataMap.set, hk, hall x (List.mem_cons_self _ _) hk]
    · intro hnone
      rw [ih1.2 (fun x hx => hnone x (List.mem_cons_of_mem _ hx))]
      have hne : e.Key ≠ key := hnone e (List.mem_cons_self _ _)
      simp [MetadataMap.set, Ne.symm hne]

/-- C19: for every request context and table of keys on which the scoping maps distinct keys
to distinct scoped keys, every SCIM user and every scalar key of the table, if
`mapMetadataToCommands` returns entries, then the metadata map built from these entries as
`queryMetadataForUser` builds it, read with `extractScalarMetadata` under the same context,
gives exactly the value the user carries for the key, the empty string included. -/
theorem scalar_metadata_round_trip (p : Packages) (ctx : RequestContext) (user : ScimUser)
    (key : Key) (entries : List AddMetadataEntry)
    (hscalar : key ∈ scalarKeys)
    (htable : key ∈ p.ScimUserRelevantMetadataKeys)
    (hinj : ∀ k1 ∈ p.ScimUserRelevantMetadataKeys, ∀ k2 ∈ p.ScimUserRelevantMetadataKeys,
      p.ScopeKey ctx k1 = p.ScopeKey ctx k2 → k1 = k2)
    (hrun : UsersHandler.mapMetadataToCommands p ctx user = Outcome.returned entries) :
    extractScalarMetadata p ctx (metadataMapOf entries) key = user.scalar key := by
  have hentries := mapMetadataToCommands_returned p ctx user entries hrun
  have hval := getValueForMetadataKey_scalar p user key hscalar
  have hfrom : ∀ e ∈ entries, e.Key = p.ScopeKey ctx key →
      entryFor p ctx user key = some e := by
    intro e he hk
    rw [hentries, List.mem_filterMap] at he
    obtain ⟨k, hkt, hke⟩ := he
    have hkey : e.Key = p.ScopeKey ctx k := by
      unfold entryFor at hke
      split at hke
      · split at hke
        · simp only [Option.some.injEq] at hke
          rw [← hke]
        · cases hke
      · cases hke
    have : k = key := hinj k hkt key htable (by rw [← hkey, hk])
    subst this
    exact hke
  have hall : ∀ e ∈ entries, e.Key = p.ScopeKey ctx key → e.Value = user.scalar key := by
    intro e he hk
    have h1 := hfrom e he hk
    simp only [entryFor, hval] at h1
    split at h1
    · simp only [Option.some.injEq] at h1
      rw [← h1]
    · cases h1
  have hlookup := foldl_set_lookup entries (fun _ => none) (p.ScopeKey ctx key)
    (user.scalar key) hall
  unfold extractScalarMetadata metadataMapOf
  by_cases hlen : (user.scalar key).length > 0
  · have hmem : ∃ e ∈ entries, e.Key = p.ScopeKey ctx key := by
      refine ⟨{ Key := p.ScopeKey ctx key, Value := user.scalar key }, ?_, rfl⟩
      rw [hentries, List.mem_filterMap]
      exact ⟨key, htable, by simp [entryFor, hval, hlen]⟩
    rw [hlookup.1 hmem]
  · have hnone : ∀ e ∈ entries, e.Key ≠ p.ScopeKey ctx key := by
      intro e he hk
      have h1 := hfrom e he hk
      simp [entryFor, hval, hlen] at h1
    rw [hlookup.2 hnone]
    exact (eq_empty_of_length_eq_zero _ (by omega)).symm

/-- Witness of C19: the middle name and the (empty) locale of a user come back as they are. -/
theorem scalar_metadata_round_trip_witness :
    (∃ entries, UsersHandler.mapMetadataToCommands samplePackages sampleRequestContext
        germanUser = Outcome.returned entries ∧
      extractScalarMetadata samplePackages sampleRequestContext (metadataMapOf entries)
        Key.MiddleName = "Peter" ∧
      extractScalarMetadata samplePackages sampleRequestContext (metadataMapOf entries)
        Key.Locale = "") :=
  have hinj : ∀ k1 ∈ samplePackages.ScimUserRelevantMetadataKeys,
      ∀ k2 ∈ samplePackages.ScimUserRelevantMetadataKeys,
      samplePackages.ScopeKey sampleRequestContext k1
        = samplePackages.ScopeKey sampleRequestContext k2 → k1 = k2 := by decide
  ⟨_, rfl,
    scalar_metadata_round_trip samplePackages sampleRequestContext germanUser Key.MiddleName _
      (by decide) (by decide) hinj rfl,
    scalar_metadata_round_trip samplePackages sampleRequestContext germanUser Key.Locale _
      (by decide) (by decide) hinj rfl⟩

/-! ## C14: stored values that fail to deserialize -/

/-- Erasing the entry of one handled key leaves the entries of the other handled keys alone,
when the scoping tells the handled keys apart. -/
theorem erase_other_key (p : Packages) (ctx : RequestContext) (md : MetadataMap)
    (failing key : Key)
    (hinj : ∀ k1 ∈ handledKeys, ∀ k2 ∈ handledKeys,
      p.ScopeKey ctx k1 = p.ScopeKey ctx k2 → k1 = k2)
    (hfailing : failing ∈ handledKeys) (hkey : key ∈ handledKeys) (hne : key ≠ failing) :
    md.erase (p.ScopeKey ctx failing) (p.ScopeKey ctx key) = md (p.ScopeKey ctx key) := by
  have : p.ScopeKey ctx key ≠ p.ScopeKey ctx failing :=
    fun h => hne (hinj key hkey failing hfailing h)
  simp [MetadataMap.erase, this]

/-- C14: for every stored user and every metadata map, under a scoping that tells the handled
keys apart, `mapToScimUser` returns a SCIM user (it is a total function: a failing
`json.Unmarshal` or URL parse is logged, never raised), and for each of ims, addresses,
photos, entitlements and roles, every field other than that one has the value it has when the
entry of that key is absent from the map, whatever the stored bytes are, undecodable ones
included; and when the stored profile URL does not parse, every field, the profile URL
included, has the value it has when that entry is absent. -/
theorem mapToScimUser_skips_undecodable (p : Packages) (ctx : RequestContext) (user : User)
    (md : MetadataMap)
    (hinj : ∀ k1 ∈ handledKeys, ∀ k2 ∈ handledKeys,
      p.ScopeKey ctx k1 = p.ScopeKey ctx k2 → k1 = k2) :
    ({ UsersHandler.mapToScimUser p ctx user md with Ims := none } =
      { UsersHandler.mapToScimUser p ctx user (md.erase (p.ScopeKey ctx Key.Ims)) with
        Ims := none }) ∧
    ({ UsersHandler.mapToScimUser p ctx user md with Addresses := none } =
      { UsersHandler.mapToScimUser p ctx user (md.erase (p.ScopeKey ctx Key.Addresses)) with
        Addresses := none }) ∧
    ({ UsersHandler.mapToScimUser p ctx user md with Photos := none } =
      { UsersHandler.mapToScimUser p ctx user (md.erase (p.ScopeKey ctx Key.Photos)) with
        Photos := none }) ∧
    ({ UsersHandler.mapToScimUser p ctx user md with Entitlements := none } =
      { UsersHandler.mapToScimUser p ctx user (md.erase (p.ScopeKey ctx Key.Entitlements)) with
        Entitlements := none }) ∧
    ({ UsersHandler.mapToScimUser p ctx user md with Roles := none } =
      { UsersHandler.mapToScimUser p ctx user (md.erase (p.ScopeKey ctx Key.Roles)) with
        Roles := none }) ∧
    (∀ val, md (p.ScopeKey ctx Key.ProfileUrl) = some val →
      (∀ url, p.ParseHTTPURL val ≠ Except.ok url) →
      UsersHandler.mapToScimUser p ctx user md =
        UsersHandler.mapToScimUser p ctx user (md.erase (p.ScopeKey ctx Key.ProfileUrl))) := by
  have other : ∀ failing ∈ handledKeys, ∀ key ∈ handledKeys, key ≠ failing →
      md.erase (p.ScopeKey ctx failing) (p.ScopeKey ctx key) = md (p.ScopeKey ctx key) :=
    fun failing hf key hk hne => erase_other_key p ctx md failing key hinj hf hk hne
  refine ⟨?_, ?_, ?_, ?_, ?_, ?_⟩
  · have h := other Key.Ims (by decide)
    cases hh : user.Human <;>
      (simp only [UsersHandler.mapToScimUser, mapHumanToScimUser, extractScalarMetadata,
        extractHttpURLMetadata, extractJsonMetadata, hh,
        h Key.Photos (by decide) (by decide),
        h Key.Addresses (by decide) (by decide),
        h Key.Entitlements (by decide) (by decide),
        h Key.Roles (by decide) (by decide),
        h Key.MiddleName (by decide) (by decide),
        h Key.HonorificPrefix (by decide) (by decide),
        h Key.HonorificSuffix (by decide) (by decide),
        h Key.ExternalId (by decide) (by decide),
        h Key.ProfileUrl (by decide) (by decide),
        h Key.Title (by decide) (by decide),
        h Key.Locale (by decide) (by decide),
        h Key.Timezone (by decide) (by decide)]
       try (split_ifs <;> rfl))
  · have h := other Key.Addresses (by decide)
    cases hh : user.Human <;>
      (simp only [UsersHandler.mapToScimUser, mapHumanToScimUser, extractScalarMetadata,
        extractHttpURLMetadata, extractJsonMetadata, hh,
        h Key.Ims (by decide) (by decide),
        h Key.Photos (by decide) (by decide),
        h Key.Entitlements (by decide) (by decide),
        h Key.Roles (by decide) (by decide),
        h Key.MiddleName (by decide) (by decide),
        h Key.HonorificPrefix (by decide) (by decide),
        h Key.HonorificSuffix (by decide) (by decide),
        h Key.ExternalId (by decide) (by decide),
        h Key.ProfileUrl (by decide) (by decide),
        h Key.Title (by decide) (by decide),
        h Key.Locale (by decide) (by decide),
        h Key.Timezone (by decide) (by decide)]
       try (split_ifs <;> rfl))
  · have h := other Key.Photos (by decide)
    cases hh : user.Human <;>
      (simp only [UsersHandler.mapToScimUser, mapHumanToScimUser, extractScalarMetadata,
        extractHttpURLMetadata, extractJsonMetadata, hh,
        h Key.Ims (by decide) (by decide),
        h Key.Addresses (by decide) (by decide),
        h Key.Entitlements (by decide) (by decide),
        h Key.Roles (by decide) (by decide),
        h Key.MiddleName (by decide) (by decide),
        h Key.HonorificPrefix (by decide) (by decide),
        h Key.HonorificSuffix (by decide) (by decide),
        h Key.ExternalId (by decide) (by decide),
        h Key.ProfileUrl (by decide) (by decide),
        h Key.Title (by decide) (by decide),
        h Key.Locale (by decide) (by decide),
        h Key.Timezone (by decide) (by decide)]
       try (split_ifs <;> rfl))
  · have h := other Key.Entitlements (by decide)
    cases hh : user.Human <;>
      (simp only [UsersHandler.mapToScimUser, mapHumanToScimUser, extractScalarMetadata,
        extractHttpURLMetadata, extractJsonMetadata, hh,
        h Key.Ims (by decide) (by decide),
        h Key.Photos (by decide) (by decide),
        h Key.Addresses (by decide) (by decide),
        h Key.Roles (by decide) (by decide),
        h Key.MiddleName (by decide) (by decide),
        h Key.HonorificPrefix (by decide) (by decide),
        h Key.HonorificSuffix (by decide) (by decide),
        h Key.ExternalId (by decide) (by decide),
        h Key.ProfileUrl (by decide) (by decide),
        h Key.Title (by decide) (by decide),
        h Key.Locale (by decide) (by decide),
        h Key.Timezone (by decide) (by decide)]
       try (split_ifs <;> rfl))
  · have h := other Key.Roles (by decide)
    cases hh : user.Human <;>
      (simp only [UsersHandler.mapToScimUser, mapHumanToScimUser, extractScalarMetadata,
        extractHttpURLMetadata, extractJsonMetadata, hh,
        h Key.Ims (by decide) (by decide),
        h Key.Photos (by decide) (by decide),
        h Key.Addresses (by decide) (by decide),
        h Key.Entitlements (by decide) (by decide),
        h Key.MiddleName (by decide) (by decide),
        h Key.HonorificPrefix (by decide) (by decide),
        h Key.HonorificSuffix (by decide) (by decide),
        h Key.ExternalId (by decide) (by decide),
        h Key.ProfileUrl (by decide) (by decide),
        h Key.Title (by decide) (by decide),
        h Key.Locale (by decide) (by decide),
        h Key.Timezone (by decide) (by decide)]
       try (split_ifs <;> rfl))
  · intro val hval hparse
    have h := other Key.ProfileUrl (by decide)
    have herased : md.erase (p.ScopeKey ctx Key.ProfileUrl) (p.ScopeKey ctx Key.ProfileUrl)
        = none := by
      simp [MetadataMap.erase]
    have hfail : ∃ e, p.ParseHTTPURL val = Except.error e := by
      cases hp : p.ParseHTTPURL val with
      | error e => exact ⟨e, rfl⟩
      | ok url => exact absurd hp (hparse url)
    obtain ⟨e, he⟩ := hfail
    cases hh : user.Human <;>
      (simp only [UsersHandler.mapToScimUser, mapHumanToScimUser, extractScalarMetadata,
        extractHttpURLMetadata, extractJsonMetadata, hh, herased, hval, he,
        h Key.Ims (by decide) (by decide),
        h Key.Photos (by decide) (by decide),
        h Key.Addresses (by decide) (by decide),
        h Key.Entitlements (by decide) (by decide),
        h Key.Roles (by decide) (by decide),
        h Key.MiddleName (by decide) (by decide),
        h Key.HonorificPrefix (by decide) (by decide),
        h Key.HonorificSuffix (by decide) (by decide),
        h Key.ExternalId (by decide) (by decide),
        h Key.Title (by decide) (by decide),
        h Key.Locale (by decide) (by decide),
        h Key.Timezone (by decide) (by decide)])

/-- Witness of C14: stored ims bytes that are not JSON and a stored profile URL that does not
parse; the title, and every other field, is read all the same. -/
theorem mapToScimUser_skips_undecodable_witness :
    (samplePackages.unmarshalIms "not json" (some [])).1 = some "invalid character" ∧
    (UsersHandler.mapToScimUser samplePackages sampleRequestContext storedUser
      brokenMetadata).Title = "Dr." ∧
    ({ UsersHandler.mapToScimUser samplePackages sampleRequestContext storedUser brokenMetadata
        with Ims := none } =
      { UsersHandler.mapToScimUser samplePackages sampleRequestContext storedUser
          (brokenMetadata.erase (samplePackages.ScopeKey sampleRequestContext Key.Ims))
        with Ims := none }) ∧
    UsersHandler.mapToScimUser samplePackages sampleRequestContext storedUser brokenMetadata =
      UsersHandler.mapToScimUser samplePackages sampleRequestContext storedUser
        (brokenMetadata.erase (samplePackages.ScopeKey sampleRequestContext Key.ProfileUrl)) :=
  have t := mapToScimUser_skips_undecodable samplePackages sampleRequestContext storedUser
    brokenMetadata (by decide)
  ⟨by decide, by decide, t.1,
    t.2.2.2.2.2 "ftp" (by decide) (fun url h => by
      have hs : "ftp".startsWith "http" = false := by decide
      simp [samplePackages, hs] at h)⟩

/-! ## C11: `Create` of the integration client -/

/-- Once the body is a byte slice, `doWithJsonBody` uses up every call it is given: each call
encodes the body again and calls itself, and no request is handed to `doWithBody`. -/
theorem doWithJsonBody_bytes_never_returns {α : Type} (c : ResourceClient) (codec : JsonCodec)
    (ctx : Context) (method url : String) (responseEntity : Option (String → Except String α))
    (fuel : Nat) (raw : Bytes) :
    (c.doWithJsonBody codec ctx method url responseEntity fuel (JsonBody.Bytes raw)).1 = none ∧
    (c.doWithJsonBody codec ctx method url responseEntity fuel (JsonBody.Bytes raw)).2.length
      = fuel ∧
    ∀ step ∈ (c.doWithJsonBody codec ctx method url responseEntity fuel (JsonBody.Bytes raw)).2,
      ∃ body, step = ClientStep.Marshal body := by
  induction fuel generalizing raw with
  | zero => simp [ResourceClient.doWithJsonBody]
  | succ n ih =>
    have h := ih (codec.marshalBytes raw)
    simp only [ResourceClient.doWithJsonBody, JsonCodec.Marshal]
    refine ⟨h.1, by simp [h.2.1], ?_⟩
    intro step hstep
    rcases List.mem_cons.mp hstep with hs | hs
    · exact ⟨_, hs⟩
    · exact h.2.2 step hs

/-- For every user that can be encoded, `Create` does not return, however many calls of
`doWithJsonBody` it is given; every step it takes is an encoding, the first of the user and the
others of the bytes of the encoding before, and no request is handed to `doWithBody`. -/
theorem Create_never_returns (c : ResourceClient) (codec : JsonCodec) (ctx : Context)
    (user : ScimUser) (raw : Bytes) (fuel : Nat)
    (hencode : codec.marshalUser user = Except.ok raw) :
    (c.Create codec ctx user fuel).1 = none ∧
    (c.Create codec ctx user fuel).2.length = fuel ∧
    (∀ step ∈ (c.Create codec ctx user fuel).2, ∃ body, step = ClientStep.Marshal body) ∧
    (∀ method url body, ClientStep.DoWithBody method url body ∉ (c.Create codec ctx user fuel).2)
    := by
  have key : (c.Create codec ctx user fuel).1 = none ∧
      (c.Create codec ctx user fuel).2.length = fuel ∧
      (∀ step ∈ (c.Create codec ctx user fuel).2, ∃ body, step = ClientStep.Marshal body) := by
    cases fuel with
    | zero => simp [ResourceClient.Create, ResourceClient.doWithJsonBody]
    | succ n =>
      have h := doWithJsonBody_bytes_never_returns c codec ctx MethodPost ""
        (some codec.decodeUser) n raw
      simp only [ResourceClient.Create, ResourceClient.doWithJsonBody, JsonCodec.Marshal,
        hencode]
      rw [h.1]
      refine ⟨rfl, by simp [h.2.1], ?_⟩
      intro step hstep
      rcases List.mem_cons.mp hstep with hs | hs
      · exact ⟨_, hs⟩
      · exact h.2.2 step hs
  refine ⟨key.1, key.2.1, key.2.2, ?_⟩
  intro method url body hmem
  obtain ⟨b, hb⟩ := key.2.2 _ hmem
  cases hb

/-- C11, the code at the failing input: for the user of `TestCreateUser`, which can be encoded,
and a server that would answer 201, `Create` does not return within any number of calls of
`doWithJsonBody`: the user is encoded, then the encoding is encoded, and so on without end,
and no request is ever handed to `doWithBody`. -/
theorem Create_testUser_never_returns (fuel : Nat) :
    sampleCodec.marshalUser testUser = Except.ok "\x7bmy-user-name\x7d" ∧
    (createdClient.Create sampleCodec sampleContext testUser fuel).1 = none ∧
    (createdClient.Create sampleCodec sampleContext testUser fuel).2.length = fuel ∧
    (∀ method url body, ClientStep.DoWithBody method url body
      ∉ (createdClient.Create sampleCodec sampleContext testUser fuel).2) ∧
    (createdClient.Create sampleCodec sampleContext testUser 3).2
      = [ClientStep.Marshal (JsonBody.User testUser),
         ClientStep.Marshal (JsonBody.Bytes "\x7bmy-user-name\x7d"),
         ClientStep.Marshal (JsonBody.Bytes "\"\x7bmy-user-name\x7d\"")] :=
  have h : sampleCodec.marshalUser testUser = Except.ok "\x7bmy-user-name\x7d" := rfl
  have t := Create_never_returns createdClient sampleCodec sampleContext testUser _ fuel h
  ⟨h, t.1, t.2.1, t.2.2.2, by decide⟩

/-! ## C18: routes and their permission mapping -/

/-- The key of a PUT route differs from every key that starts with one of the three methods
`AuthMapping` names. -/
theorem put_key_ne (v a b : String) :
    "PUT" ++ ":" ++ HandlerPrefix ++ a ≠ "POST:/scim/v2/" ++ v ++ b ∧
    "PUT" ++ ":" ++ HandlerPrefix ++ a ≠ "GET:/scim/v2/" ++ v ++ b ∧
    "PUT" ++ ":" ++ HandlerPrefix ++ a ≠ "DELETE:/scim/v2/" ++ v ++ b := by
  have l0 : ("PUT" : String).data = ['P', 'U', 'T'] := rfl
  have l1 : ("POST:/scim/v2/" : String).data
      = ['P', 'O', 'S', 'T', ':', '/', 's', 'c', 'i', 'm', '/', 'v', '2', '/'] := rfl
  have l2 : ("GET:/scim/v2/" : String).data
      = ['G', 'E', 'T', ':', '/', 's', 'c', 'i', 'm', '/', 'v', '2', '/'] := rfl
  have l3 : ("DELETE:/scim/v2/" : String).data
      = ['D', 'E', 'L', 'E', 'T', 'E', ':', '/', 's', 'c', 'i', 'm', '/', 'v', '2', '/'] := rfl
  refine ⟨?_, ?_, ?_⟩ <;> intro h <;> have h := congrArg String.data h <;>
    simp [String.data_append, l0, l1, l2, l3] at h

/-- Whatever the value of `http.OrgIdInPathVariable`, `mapResource` registers the PUT route on
`/{id}` for every handler, and `AuthMapping` has no entry under the key of a PUT route. -/
theorem put_route_has_no_permission (v : String) (handler : ResourceHandler) :
    ({ Method := "PUT", Path := "/" ++ v ++ "/" ++ handler.ResourceNamePlural ++ "/\x7bid\x7d" }
      : Route) ∈ mapResource v handler ∧
    ∀ path permission,
      (Route.authKey { Method := "PUT", Path := path }, permission) ∉ AuthMapping v := by
  refine ⟨by simp [mapResource], ?_⟩
  intro path permission hmem
  simp only [AuthMapping, Route.authKey, List.mem_cons, List.mem_singleton, List.not_mem_nil,
    or_false, Prod.mk.injEq] at hmem
  rcases hmem with h | h | h | h | h
  · exact (put_key_ne v path "/Users").1 h.1
  · exact (put_key_ne v path "/Users/.search").1 h.1
  · exact (put_key_ne v path "/Users").2.1 h.1
  · exact (put_key_ne v path "/Users/\x7bid\x7d").2.1 h.1
  · exact (put_key_ne v path "/Users/\x7bid\x7d").2.2 h.1

/-- C18, the code at the failing input: of the six routes `mapResource` registers for the Users
resource, five have an entry in `AuthMapping` under their method and path, and the PUT route on
`/{id}` (server.go 55) has none. -/
theorem users_routes_permissions :
    (mapResource sampleOrgIdInPathVariable usersResourceHandler).map
        (fun r => (r.authKey, requiredPermission sampleOrgIdInPathVariable r)) =
      [ ("POST:/scim/v2/\x7borgId\x7d/Users", some Permission.UserWrite),
        ("GET:/scim/v2/\x7borgId\x7d/Users", some Permission.UserRead),
        ("POST:/scim/v2/\x7borgId\x7d/Users/.search", some Permission.UserRead),
        ("GET:/scim/v2/\x7borgId\x7d/Users/\x7bid\x7d", some Permission.UserRead),
        ("PUT:/scim/v2/\x7borgId\x7d/Users/\x7bid\x7d", none),
        ("DELETE:/scim/v2/\x7borgId\x7d/Users/\x7bid\x7d", some Permission.UserDelete) ] := by
  decide

end Zitadel
